import Mathlib

/-!
Formal model of the compiler-output comparison engine in
`tools/codediff/codediff.py` (the "codediff" tool).

The Python source is shallowly embedded: strings are `List Char`
(`Str` below), Python dicts are association lists preserving insertion
order, file-system and subprocess interaction is passed in explicitly as
data, and Python exceptions are an explicit `PyErr` error monad
(`Except PyErr`).  Regular-expression operations used by the tool are
implemented as executable scanners whose semantics follow the specific
patterns appearing in the source (leftmost match, greedy digit runs,
non-overlapping `finditer`); character classes are modelled at the ASCII
level, which covers all text the tool processes.
-/

set_option maxHeartbeats 1000000
set_option maxRecDepth 10000

/-- Python strings, modelled as lists of characters. -/
abbrev Str := List Char

/-- Python's notion of whitespace for `str.strip` / `str.rstrip`
(ASCII part: space, tab, newline, carriage return, vertical tab, form feed). -/
def pyIsSpace (c : Char) : Bool :=
  c = ' ' || c = '\t' || c = '\n' || c = '\x0d' || c = '\x0b' || c = '\x0c'

/-- Model of `str.rstrip()`: drop trailing whitespace. -/
def pyRstrip (s : Str) : Str :=
  (s.reverse.dropWhile pyIsSpace).reverse

/-- Model of `str.strip()`: drop leading and trailing whitespace. -/
def pyStrip (s : Str) : Str :=
  (pyRstrip s).dropWhile pyIsSpace

/-- Model of `str.splitlines()` for LF-separated text (the tool only ever splits
text it produced itself with `"\n"` separators, or file text read in text
mode): `"a\nb" ↦ ["a","b"]`, a trailing newline produces no extra empty
line, and `"" ↦ []`. -/
def pySplitlinesGo (acc : Str) : Str → List Str
  | [] => if acc.isEmpty then [] else [acc.reverse]
  | c :: cs =>
    if c = '\n' then acc.reverse :: pySplitlinesGo [] cs
    else pySplitlinesGo (c :: acc) cs

/-- Model of `str.splitlines()` (LF version, see `pySplitlinesGo`). -/
def pySplitlines (s : Str) : List Str :=
  pySplitlinesGo [] s

/-- Model of `file.readlines()` for LF-separated text: split keeping the line
terminators, `"x\ny" ↦ ["x\n", "y"]`. -/
def pyReadlinesGo (acc : Str) : Str → List Str
  | [] => if acc.isEmpty then [] else [acc.reverse]
  | c :: cs =>
    if c = '\n' then (c :: acc).reverse :: pyReadlinesGo [] cs
    else pyReadlinesGo (c :: acc) cs

/-- Model of `file.readlines()` (LF version, see `pyReadlinesGo`). -/
def pyReadlines (s : Str) : List Str :=
  pyReadlinesGo [] s

/-- Model of `sep.join(xs)`. -/
def pyJoin (sep : Str) (xs : List Str) : Str :=
  List.intercalate sep xs

/-- The value of the digit string captured by a `(\d+)` group, as `int()`
computes it. -/
def natOfDigits (ds : Str) : Nat :=
  ds.foldl (fun n c => n * 10 + (c.toNat - '0'.toNat)) 0

/-- Python exceptions that the modelled code can raise. -/
inductive PyErr where
  | assertionError
  | typeError
  | attributeError
  | indexError
  | keyError
  | fileNotFoundError
  | nameError
deriving DecidableEq, Repr

/-!
## The `nvfuser_<digits>` normalization (source line 601)

`re.sub(r"\bnvfuser_\d+\b", "nvfuser_N", line)` replaces every occurrence
of an `nvfuser_<digits>` identifier that sits at word boundaries with the
fixed placeholder `nvfuser_N`.  We model the regex word characters `\w`
at the ASCII level ([a-zA-Z0-9_]).
-/

/-- Regex `\w` (ASCII): letters, digits and underscore. -/
def isWordChar (c : Char) : Bool :=
  c.isAlphanum || c = '_'

/-- The literal `nvfuser_` that opens each match of `\bnvfuser_\d+\b`. -/
def nvfLit : Str := "nvfuser_".toList

/-- The replacement text `nvfuser_N`. -/
def nvfRepl : Str := "nvfuser_N".toList

/-- The `\b` at the position of a remainder string: true when the remainder is
empty or starts with a non-word character (the previous character of the
match is always a digit, a word character). -/
def headNonWord : Str → Bool
  | [] => true
  | c :: _ => !isWordChar c

/-- Attempt to match `\bnvfuser_\d+\b` at position 0 of `s`, where `p`
says whether the character just before `s` is a word character (`false`
at the start of the string).  On success returns the captured digit run
and the remainder after the match.  The digit run is the greedy
(maximal) one: the pattern's tail `\b` cannot be satisfied by a shorter
run because the following character would then be a digit, a word
character. -/
def tryNvf (p : Bool) (s : Str) : Option (Str × Str) :=
  if p then none
  else if s.take 8 = nvfLit then
    if ((s.drop 8).takeWhile Char.isDigit).isEmpty then none
    else if headNonWord ((s.drop 8).dropWhile Char.isDigit) then
      some ((s.drop 8).takeWhile Char.isDigit, (s.drop 8).dropWhile Char.isDigit)
    else none
  else none

/-- The scanning loop of `re.sub`: walk left to right; at each position
either replace a whole match (continuing after it, non-overlapping,
with the last consumed character being a digit, i.e. a word character)
or copy one character.  Fuel is the number of remaining steps; each step
consumes at least one character, so fuel `s.length` suffices. -/
def subGo : Nat → Bool → Str → Str
  | 0, _, s => s
  | f + 1, p, s =>
    match tryNvf p s with
    | some (_, rest) => nvfRepl ++ subGo f true rest
    | none =>
      match s with
      | [] => []
      | c :: cs => c :: subGo f (isWordChar c) cs

/-- The `re.sub(r"\bnvfuser_\d+\b", "nvfuser_N", s)`. -/
def subNvfuser (s : Str) : Str :=
  subGo s.length false s

/-!
### "Differing only in the numeric suffixes of `nvfuser_<digits>` identifiers"

`NvfRel p s1 s2` relates two strings that are equal except that, at
positions preceded by a non-word character (so that the `\b` of an
identifier holds), an `nvfuser_<digits>` identifier may carry different
digit runs in the two strings; both runs are followed by a non-word
character (the closing `\b`).  The boolean index `p` tracks whether the
character just before the related suffixes is a word character.
-/

inductive NvfRel : Bool → Str → Str → Prop where
  | nil {p : Bool} : NvfRel p [] []
  | cons (c : Char) {p : Bool} {t1 t2 : Str} :
      NvfRel (isWordChar c) t1 t2 → NvfRel p (c :: t1) (c :: t2)
  | ident {d1 d2 t1 t2 : Str} :
      d1 ≠ [] → d2 ≠ [] →
      (∀ c ∈ d1, c.isDigit) → (∀ c ∈ d2, c.isDigit) →
      headNonWord t1 = true → headNonWord t2 = true →
      NvfRel true t1 t2 →
      NvfRel false (nvfLit ++ d1 ++ t1) (nvfLit ++ d2 ++ t2)

/-- Every string is related to itself. -/
theorem nvfRel_refl : ∀ (p : Bool) (s : Str), NvfRel p s s := by
  intro p s
  induction s generalizing p with
  | nil => exact NvfRel.nil
  | cons c cs ih => exact NvfRel.cons c (ih _)

/-- The relation `NvfRel` is symmetric. -/
theorem nvfRel_symm {p : Bool} {s1 s2 : Str} (h : NvfRel p s1 s2) :
    NvfRel p s2 s1 := by
  induction h with
  | nil => exact NvfRel.nil
  | cons c _ ih => exact NvfRel.cons c ih
  | ident h1 h2 h3 h4 h5 h6 _ ih => exact NvfRel.ident h2 h1 h4 h3 h6 h5 ih

/-- Related-to-empty means empty. -/
theorem nvfRel_nil_right {p : Bool} {s2 : Str} (h : NvfRel p [] s2) :
    s2 = [] := by
  cases h
  rfl

/-- Inversion at index `true`: the `ident` constructor only produces
index `false`, so a `true`-indexed relation is `nil` or `cons`. -/
theorem nvfRel_true_inv {s1 s2 : Str} (h : NvfRel true s1 s2) :
    (s1 = [] ∧ s2 = []) ∨
      ∃ c t1 t2, s1 = c :: t1 ∧ s2 = c :: t2 ∧ NvfRel (isWordChar c) t1 t2 := by
  cases h with
  | nil => exact Or.inl ⟨rfl, rfl⟩
  | cons c h => exact Or.inr ⟨c, _, _, rfl, rfl, h⟩

/-- A digit is a word character. -/
theorem isWordChar_of_isDigit {c : Char} (h : c.isDigit) : isWordChar c = true := by
  simp [isWordChar, Char.isAlphanum, h]

/-- Peel a run of word characters common to both sides of a
`true`-indexed relation. -/
theorem nvfRel_peel_word :
    ∀ (lit : Str), (∀ c ∈ lit, isWordChar c) →
    ∀ {a s2 : Str}, NvfRel true (lit ++ a) s2 →
    ∃ b, s2 = lit ++ b ∧ NvfRel true a b := by
  intro lit
  induction lit with
  | nil =>
    intro _ a s2 h
    exact ⟨s2, rfl, h⟩
  | cons c cs ih =>
    intro hw a s2 h
    rw [List.cons_append] at h
    rcases nvfRel_true_inv h with ⟨h1, _⟩ | ⟨c', t1, t2, h1, h2, h3⟩
    · exact absurd h1 (by simp)
    · injection h1 with hc ht
      subst hc
      subst ht
      have hcw : isWordChar c = true := hw c (by simp)
      rw [hcw] at h3
      obtain ⟨b, hb, hrel⟩ := ih (fun x hx => hw x (by simp [hx])) h3
      exact ⟨b, by simp [h2, hb], hrel⟩

/-- The `takeWhile`/`dropWhile` of a digit run followed by a non-digit head. -/
theorem span_digits {d t : Str} (hd : ∀ c ∈ d, c.isDigit)
    (ht : headNonWord t = true) :
    (d ++ t).takeWhile Char.isDigit = d ∧ (d ++ t).dropWhile Char.isDigit = t := by
  induction d with
  | nil =>
    cases t with
    | nil => simp
    | cons c cs =>
      simp only [headNonWord, Bool.not_eq_true'] at ht
      have : c.isDigit = false := by
        cases hh : c.isDigit
        · rfl
        · exact absurd (isWordChar_of_isDigit hh) (by simp [ht])
      simp [List.takeWhile, List.dropWhile, this]
  | cons c cs ih =>
    have hc : c.isDigit := hd c (by simp)
    have := ih (fun x hx => hd x (by simp [hx]))
    simp [List.takeWhile, List.dropWhile, hc, this.1, this.2]

/-- Characterize a successful `tryNvf`. -/
theorem tryNvf_eq_some {p : Bool} {s d r : Str}
    (h : tryNvf p s = some (d, r)) :
    p = false ∧ s = nvfLit ++ d ++ r ∧ d ≠ [] ∧ (∀ c ∈ d, c.isDigit) ∧
      headNonWord r = true := by
  unfold tryNvf at h
  split at h
  · exact absurd h (by simp)
  next hp =>
  split at h
  swap
  · exact absurd h (by simp)
  next htake =>
  split at h
  · exact absurd h (by simp)
  next hds =>
  split at h
  swap
  · exact absurd h (by simp)
  next hnw =>
  injection h with h'
  have h1 : (s.drop 8).takeWhile Char.isDigit = d := congrArg Prod.fst h'
  have h2 : (s.drop 8).dropWhile Char.isDigit = r := congrArg Prod.snd h'
  refine ⟨by simpa using hp, ?_, ?_, ?_, by rwa [h2] at hnw⟩
  · conv_lhs => rw [← List.take_append_drop 8 s]
    rw [htake, ← h1, ← h2, List.append_assoc, List.takeWhile_append_dropWhile]
  · rw [← h1]
    simpa using hds
  · intro c hc
    rw [← h1] at hc
    exact List.mem_takeWhile_imp hc

/-- Every character of the literal `nvfuser_` is a word character. -/
theorem nvfLit_word : ∀ c ∈ nvfLit, isWordChar c := by decide

/-- Model of `nvfuser_` as an explicit character list. -/
theorem nvfLit_def :
    nvfLit = 'n' :: 'v' :: 'f' :: 'u' :: 's' :: 'e' :: 'r' :: '_' :: [] := rfl

/-- The tail `vfuser_` of the literal. -/
def nvfTail : Str := 'v' :: 'f' :: 'u' :: 's' :: 'e' :: 'r' :: '_' :: []

/-- Every character of `vfuser_` is a word character. -/
theorem nvfTail_word : ∀ c ∈ nvfTail, isWordChar c := by decide

/-- Build a successful `tryNvf` from the pieces. -/
theorem tryNvf_of_parts {d r : Str} (hd : d ≠ []) (hdd : ∀ c ∈ d, c.isDigit)
    (hr : headNonWord r = true) :
    tryNvf false (nvfLit ++ d ++ r) = some (d, r) := by
  have hlen : nvfLit.length = 8 := by decide
  have htake : (nvfLit ++ d ++ r).take 8 = nvfLit := by
    rw [List.append_assoc, ← hlen, List.take_left]
  have hdrop : (nvfLit ++ d ++ r).drop 8 = d ++ r := by
    rw [List.append_assoc, ← hlen, List.drop_left]
  have hspan := span_digits hdd hr
  unfold tryNvf
  rw [if_neg (by simp), if_pos htake]
  simp only [hdrop, hspan.1, hspan.2]
  rw [if_neg (by simpa using hd), if_pos hr]

/-- If a match fires on the left of a related pair, a match fires on the
right, and the remainders are related (at index `true`: the last
character of a match is a digit). -/
theorem nvfRel_fire {p : Bool} {s1 s2 d1 r1 : Str}
    (h : NvfRel p s1 s2) (hm : tryNvf p s1 = some (d1, r1)) :
    ∃ d2 r2, tryNvf p s2 = some (d2, r2) ∧ NvfRel true r1 r2 ∧
      s2 = nvfLit ++ d2 ++ r2 ∧ d2 ≠ [] := by
  obtain ⟨hp, hs1, hd1, hdd1, hr1⟩ := tryNvf_eq_some hm
  subst hp
  cases h with
  | nil => simp [nvfLit] at hs1
  | ident hne1 hne2 hdig1 hdig2 hnw1 hnw2 hrel =>
    next d1' d2' t1 t2 =>
    -- the two decompositions of s1 agree
    have heq : d1' ++ t1 = d1 ++ r1 := by
      have := hs1
      rw [List.append_assoc, List.append_assoc] at this
      exact List.append_cancel_left this
    have hspan := span_digits hdig1 hnw1
    have hspan' := span_digits hdd1 hr1
    have hd : d1' = d1 := by
      have h1 := hspan.1
      rw [heq, hspan'.1] at h1
      exact h1.symm
    have ht : t1 = r1 := by
      have h2 := hspan.2
      rw [heq, hspan'.2] at h2
      exact h2.symm
    subst hd
    subst ht
    exact ⟨d2', t2, tryNvf_of_parts hne2 hdig2 hnw2, hrel, rfl, hne2⟩
  | cons c hrel =>
    rename_i t1 t2
    -- the cons-case: the whole match region is literally shared
    rw [nvfLit_def] at hs1
    simp only [List.cons_append, List.nil_append] at hs1
    injection hs1 with hc hs1'
    subst hc
    have ht1 : t1 = (nvfTail ++ d1) ++ r1 := by
      simpa [nvfTail, List.cons_append, List.nil_append, List.append_assoc] using hs1'
    have hword : ∀ c ∈ nvfTail ++ d1, isWordChar c := by
      intro c hc
      rcases List.mem_append.mp hc with h | h
      · exact nvfTail_word c h
      · exact isWordChar_of_isDigit (hdd1 c h)
    have hwn : isWordChar 'n' = true := by decide
    rw [hwn, ht1] at hrel
    obtain ⟨b, hb, hrelb⟩ := nvfRel_peel_word _ hword hrel
    have hheadb : headNonWord b = true := by
      rcases nvfRel_true_inv hrelb with ⟨h1, h2⟩ | ⟨c', u1, u2, h1, h2, _⟩
      · simp [h2, headNonWord]
      · subst h1
        subst h2
        simpa [headNonWord] using hr1
    have hs2 : 'n' :: t2 = nvfLit ++ d1 ++ b := by
      rw [hb]
      simp [nvfLit_def, nvfTail, List.cons_append, List.append_assoc]
    exact ⟨d1, b, by rw [hs2]; exact tryNvf_of_parts hd1 hdd1 hheadb, hrelb, hs2, hd1⟩

/-- If no match fires on the left, none fires on the right. -/
theorem nvfRel_nofire {p : Bool} {s1 s2 : Str}
    (h : NvfRel p s1 s2) (hm : tryNvf p s1 = none) :
    tryNvf p s2 = none := by
  cases hm2 : tryNvf p s2 with
  | none => rfl
  | some dr =>
    obtain ⟨d2, r2⟩ := dr
    obtain ⟨d1, r1, hfire, _, _, _⟩ := nvfRel_fire (nvfRel_symm h) hm2
    rw [hm] at hfire
    exact absurd hfire (by simp)

/-- No match fires on the empty string. -/
theorem tryNvf_nil {p : Bool} : tryNvf p [] = none := by
  cases p <;> simp [tryNvf, nvfLit_def]

/-- The scanner maps the empty string to the empty string at any fuel. -/
theorem subGo_nil : ∀ (f : Nat) (p : Bool), subGo f p [] = [] := by
  intro f p
  cases f
  · rfl
  · simp [subGo, tryNvf_nil]

/-- Main lemma: the substitution scanner produces equal output on related
strings (for any sufficient fuel). -/
theorem subGo_rel : ∀ (f1 : Nat) {f2 : Nat} {p : Bool} {s1 s2 : Str},
    NvfRel p s1 s2 → s1.length ≤ f1 → s2.length ≤ f2 →
    subGo f1 p s1 = subGo f2 p s2 := by
  intro f1
  induction f1 with
  | zero =>
    intro f2 p s1 s2 h h1 h2
    have hs1 : s1 = [] := by
      cases s1
      · rfl
      · simp at h1
    subst hs1
    have hs2 := nvfRel_nil_right h
    subst hs2
    rw [subGo_nil, subGo_nil]
  | succ f1' ih =>
    intro f2 p s1 s2 h h1 h2
    cases hm : tryNvf p s1 with
    | some dr =>
      obtain ⟨d1, r1⟩ := dr
      obtain ⟨hp, hs1, hd1, _, _⟩ := tryNvf_eq_some hm
      obtain ⟨d2, r2, hfire, hrel, hs2, hd2⟩ := nvfRel_fire h hm
      have hlen2 : s2.length = 8 + (d2.length + r2.length) := by
        rw [hs2]
        simp [nvfLit_def]
        omega
      have hd2len : 1 ≤ d2.length := by
        cases d2
        · exact absurd rfl hd2
        · simp
      obtain ⟨f2', rfl⟩ : ∃ k, f2 = k + 1 := ⟨f2 - 1, by omega⟩
      have hlen1 : s1.length = 8 + (d1.length + r1.length) := by
        rw [hs1]
        simp [nvfLit_def]
        omega
      have hd1len : 1 ≤ d1.length := by
        cases d1
        · exact absurd rfl hd1
        · simp
      have hr1f : r1.length ≤ f1' := by omega
      have hr2f : r2.length ≤ f2' := by omega
      simp only [subGo, hm, hfire]
      rw [ih hrel hr1f hr2f]
    | none =>
      have hm2 := nvfRel_nofire h hm
      cases h with
      | nil =>
        rw [subGo_nil, subGo_nil]
      | cons c hrel =>
        rename_i t1 t2
        have hf2 : 1 ≤ f2 := by
          simp at h2
          omega
        obtain ⟨f2', rfl⟩ : ∃ k, f2 = k + 1 := ⟨f2 - 1, by omega⟩
        have ht1 : t1.length ≤ f1' := by
          simp at h1
          omega
        have ht2 : t2.length ≤ f2' := by
          simp at h2
          omega
        simp only [subGo, hm, hm2]
        rw [ih hrel ht1 ht2]
      | ident hne1 hne2 hdig1 hdig2 hnw1 hnw2 hrel =>
        exact absurd hm (by rw [tryNvf_of_parts hne1 hdig1 hnw1]; simp)

/-- Substitution on related strings is equal. -/
theorem subNvfuser_rel {s1 s2 : Str} (h : NvfRel false s1 s2) :
    subNvfuser s1 = subNvfuser s2 :=
  subGo_rel _ h le_rfl le_rfl

/-!
## Association lists: the model of Python `dict`

Python dicts preserve insertion order; assignment to an existing key
updates its value in place.
-/

/-- Model of `m[k]` lookup (first, and with well-formed maps only, entry). -/
def alLookup {α : Type} (k : Str) : List (Str × α) → Option α
  | [] => none
  | (k', v) :: rest => if k' = k then some v else alLookup k rest

/-- Model of `m[k] = v`: update in place if the key exists, else append. -/
def alInsert {α : Type} (k : Str) (v : α) : List (Str × α) → List (Str × α)
  | [] => [(k, v)]
  | (k', v') :: rest =>
    if k' = k then (k, v) :: rest else (k', v') :: alInsert k v rest

/-- A well-formed dict: looking up any entry's key yields that entry's
value (true of every Python dict, where keys are unique). -/
def pyDictWF {α : Type} (m : List (Str × α)) : Prop :=
  ∀ p ∈ m, alLookup p.1 m = some p.2

instance {α : Type} [DecidableEq α] (m : List (Str × α)) :
    Decidable (pyDictWF m) := by
  unfold pyDictWF
  infer_instance

/-- A successful lookup comes from an entry of the list. -/
theorem alLookup_mem {α : Type} {k : Str} {v : α} :
    ∀ {m : List (Str × α)}, alLookup k m = some v → (k, v) ∈ m := by
  intro m
  induction m with
  | nil => intro h; exact absurd h (by simp [alLookup])
  | cons p rest ih =>
    intro h
    obtain ⟨k', v'⟩ := p
    unfold alLookup at h
    split at h
    · next heq =>
      injection h with h
      subst heq
      subst h
      exact List.mem_cons_self _ _
    · exact List.mem_cons_of_mem _ (ih h)

/-- A membership gives a successful lookup (of some value). -/
theorem alLookup_isSome_of_mem {α : Type} {k : Str} {v : α} :
    ∀ {m : List (Str × α)}, (k, v) ∈ m → (alLookup k m).isSome := by
  intro m
  induction m with
  | nil => intro h; exact absurd h (by simp)
  | cons p rest ih =>
    intro h
    obtain ⟨k', v'⟩ := p
    unfold alLookup
    split
    · simp
    · next hne =>
      rcases List.mem_cons.mp h with h | h
      · injection h with h1 h2
        exact absurd h1.symm hne
      · exact ih h

/-- Entries of `alInsert k v m` are `(k, v)` or entries of `m`. -/
theorem alInsert_mem {α : Type} {k : Str} {v : α} {p : Str × α} :
    ∀ {m : List (Str × α)}, p ∈ alInsert k v m → p = (k, v) ∨ p ∈ m := by
  intro m
  induction m with
  | nil => intro h; simpa [alInsert] using h
  | cons q rest ih =>
    intro h
    obtain ⟨k', v'⟩ := q
    unfold alInsert at h
    split at h
    · rcases List.mem_cons.mp h with h | h
      · exact Or.inl h
      · exact Or.inr (List.mem_cons_of_mem _ h)
    · rcases List.mem_cons.mp h with h | h
      · exact Or.inr (by simp [h])
      · rcases ih h with h | h
        · exact Or.inl h
        · exact Or.inr (List.mem_cons_of_mem _ h)

/-- Insertion preserves lookup success of any present key. -/
theorem alInsert_lookup_mono {α : Type} {k k' : Str} {v : α} :
    ∀ {m : List (Str × α)}, (alLookup k m).isSome →
      (alLookup k (alInsert k' v m)).isSome := by
  intro m
  induction m with
  | nil => intro h; simp [alLookup] at h
  | cons q rest ih =>
    intro h
    obtain ⟨k0, v0⟩ := q
    by_cases h1 : k0 = k'
    · by_cases h2 : k' = k
      · simp [alInsert, alLookup, h1, h2]
      · have h0 : ¬k0 = k := by rw [h1]; exact h2
        rw [show alLookup k ((k0, v0) :: rest) = alLookup k rest from by
          simp [alLookup, h0]] at h
        simpa [alInsert, alLookup, h1, h2] using h
    · by_cases h2 : k0 = k
      · have h3 : ¬k = k' := fun hh => h1 (h2.trans hh)
        simp [alInsert, alLookup, h1, h2, h3]
      · rw [show alLookup k ((k0, v0) :: rest) = alLookup k rest from by
          simp [alLookup, h2]] at h
        simpa [alInsert, alLookup, h1, h2] using ih h

/-!
## Data model: `CommandType`, `BenchmarkResult`, `CompiledKernel`,
`CompiledTest` (source lines 91-243)
-/

/-- Model of `CommandType` (source line 215): what type of command was run. -/
inductive CommandType where
  | UNKNOWN
  | GOOGLETEST
  | GOOGLEBENCH
  | PYTEST
deriving DecidableEq, Repr

/-- Model of `BenchmarkResult` (source line 196).  The fields are annotated as
floats in the source but at runtime hold the raw regex capture strings,
so they are modelled as strings. -/
structure BenchmarkResult where
  gpu_time : Str
  gpu_time_unit : Str
  cpu_time : Str
  cpu_time_unit : Str
  iterations : Option Str := none
deriving DecidableEq, Repr

/-!
### `re` scanners for `CompiledKernel.parse_ptxas` (source lines 123-166)

`find_unique_int(r"(\d+) <suffix>")` searches for the leftmost digit run
followed by the literal suffix.  All the suffixes used start with a
space, so backtracking inside `\d+` can never succeed with less than the
maximal run, and a match at a position is exactly: a maximal digit run
followed by the literal suffix.
-/

/-- Leftmost `(\d+)<sfx>` match: returns the captured integer. -/
def findNumGo (sfx : Str) : Nat → Str → Option Nat
  | 0, _ => none
  | _ + 1, [] => none
  | f + 1, s@(c :: cs) =>
    if c.isDigit then
      if (s.dropWhile Char.isDigit).take sfx.length = sfx then
        some (natOfDigits (s.takeWhile Char.isDigit))
      else findNumGo sfx f cs
    else findNumGo sfx f cs

/-- Model of `re.search(r"(\d+)" + sfx, s)`, returning the captured integer. -/
def findNum (sfx : Str) (s : Str) : Option Nat :=
  findNumGo sfx s.length s

/-- Model of `find_unique_int` (source line 146): 0 when there is no match. -/
def findUniqueInt (sfx : Str) (s : Str) : Nat :=
  (findNum sfx s).getD 0

/-- One step of `re.finditer(r"(\d+) bytes cmem\[(\d+)\]", s)`: try to
match at position 0, returning `(nbytes, bank, remainder)`. -/
def cmemMatchAt (s : Str) : Option (Nat × Nat × Str) :=
  if (s.headI).isDigit ∧ s ≠ [] then
    let ds := s.takeWhile Char.isDigit
    let r1 := s.dropWhile Char.isDigit
    if r1.take 12 = " bytes cmem[".toList then
      let r2 := r1.drop 12
      let bs := r2.takeWhile Char.isDigit
      let r3 := r2.dropWhile Char.isDigit
      if bs ≠ [] ∧ r3.take 1 = "]".toList then
        some (natOfDigits ds, natOfDigits bs, r3.drop 1)
      else none
    else none
  else none

/-- Model of `re.finditer(r"(\d+) bytes cmem\[(\d+)\]", s)`: all non-overlapping
matches, scanning left to right. -/
def cmemScanGo : Nat → Str → List (Nat × Nat)
  | 0, _ => []
  | _ + 1, [] => []
  | f + 1, s@(_ :: cs) =>
    match cmemMatchAt s with
    | some (n, b, rest) => (n, b) :: cmemScanGo f rest
    | none => cmemScanGo f cs

/-- All `(\d+) bytes cmem\[(\d+)\]` matches of `s`. -/
def cmemScan (s : Str) : List (Nat × Nat) :=
  cmemScanGo s.length s

/-- The cmem bank accumulation of source lines 158-166: extend the list
with zeros up to the bank index, then set the bank's byte count. -/
def fillBank (banks : List Nat) (m : Nat × Nat) : List Nat :=
  let (nbytes, bank) := m
  let banks :=
    if banks.length ≤ bank then
      banks ++ List.replicate (bank + 1 - banks.length) 0
    else banks
  banks.set bank nbytes

/-- Model of `CompiledKernel` (source line 101).  `launch_params` (populated by
`parse_launch_params`, source lines 168-191) and the
`mangled_name`/`arch` extraction of `parse_ptxas` (source lines 142-144)
only fill display-oriented fields that no claim concerns; they are left
unmodelled and those fields keep their defaults. -/
structure CompiledKernel where
  filename : Str
  code : Option Str := none
  ptx : Option Str := none
  ptxas_info : Option Str := none
  launch_params_str : Option Str := none
  gmem_bytes : Nat := 0
  smem_bytes : Nat := 0
  cmem_bank_bytes : Option (List Nat) := none
  registers : Option Nat := none
  stack_frame_bytes : Nat := 0
  spill_store_bytes : Nat := 0
  spill_load_bytes : Nat := 0
  mangled_name : Option Str := none
  arch : Option Str := none
  index_type : Option Str := none
deriving DecidableEq, Repr

/-- Model of `CompiledKernel.parse_ptxas` (source lines 123-166): fill the
resource-usage fields from the accumulated ptxas diagnostic text. -/
def parsePtxas (k : CompiledKernel) : CompiledKernel :=
  match k.ptxas_info with
  | none => k
  | some info =>
    { k with
      stack_frame_bytes := findUniqueInt " bytes stack frame".toList info
      spill_store_bytes := findUniqueInt " bytes spill stores".toList info
      spill_load_bytes := findUniqueInt " bytes spill loads".toList info
      registers := some (findUniqueInt " registers".toList info)
      gmem_bytes := findUniqueInt " bytes gmem".toList info
      smem_bytes := findUniqueInt " bytes smem".toList info
      cmem_bank_bytes := some ((cmemScan info).foldl fillBank []) }

/-- Model of `CompiledKernel.__post_init__` (source line 119) as applied when the
log parser finalizes a kernel (source lines 283-291). -/
def mkCompiledKernel (filename : Str) (ptxas_info : Option Str)
    (launch_params_str : Option Str) : CompiledKernel :=
  parsePtxas
    { filename := filename, ptxas_info := ptxas_info,
      launch_params_str := launch_params_str }

/-- Model of `CompiledTest` (source line 206): one named grouping of kernels. -/
structure CompiledTest where
  name : Str
  kernels : List CompiledKernel
  passed : Bool := true
  benchmark_result : Option BenchmarkResult := none
deriving DecidableEq, Repr

/-!
## Line preprocessing (source lines 262-264, 277-281)

Each log line is right-stripped and then ANSI color escape sequences are
removed with `re.sub(r"(\x9B|\x1B\[)[0-?]*[ -\/]*[@-~]", "", line)`.
The three character classes are pairwise disjoint byte ranges, so the
greedy stars cannot backtrack and matching is maximal-munch.
-/

/-- Match the tail `[0-?]*[ -\/]*[@-~]` of an ANSI escape after its
opener, returning the remainder after the full match. -/
def ansiTail (s : Str) : Option Str :=
  let r1 := s.dropWhile (fun c => '0' ≤ c && c ≤ '?')
  let r2 := r1.dropWhile (fun c => ' ' ≤ c && c ≤ '/')
  match r2 with
  | [] => none
  | c :: r3 => if '@' ≤ c && c ≤ '~' then some r3 else none

/-- Match `(\x9B|\x1B\[)[0-?]*[ -\/]*[@-~]` at position 0. -/
def ansiMatchAt : Str → Option Str
  | '\x9b' :: rest => ansiTail rest
  | '\x1b' :: '[' :: rest => ansiTail rest
  | _ => none

/-- The scanning loop of the ANSI `re.sub` (replacement is empty). -/
def ansiSubGo : Nat → Str → Str
  | 0, s => s
  | _ + 1, [] => []
  | f + 1, s@(c :: cs) =>
    match ansiMatchAt s with
    | some rest => ansiSubGo f rest
    | none => c :: ansiSubGo f cs

/-- Model of `self.ansi_re.sub("", s)` (source line 264). -/
def ansiSub (s : Str) : Str :=
  ansiSubGo s.length s

/-- The per-line preprocessing of `LogParser.parse` (source line 279):
`line = self.ansi_re.sub("", line.rstrip())`. -/
def preprocessLine (s : Str) : Str :=
  ansiSub (pyRstrip s)

/-!
## The `LogParser` state machine (source lines 246-351)

The mutable parser attributes become an explicit state record.  Printing
of warnings is a side effect with no bearing on the parse state and is
not modelled.
-/

/-- The mutable state of a `LogParser` (source lines 253-275). -/
structure ParserState where
  kernel_map : List (Str × CompiledTest) := []
  current_test : Option Str := none
  current_file : Option Str := none
  ptxas_info : Str := []
  launch_params_str : Str := []
  kernels : List CompiledKernel := []
deriving DecidableEq, Repr

/-- The state after `__init__` has run `reset_test_state` (source
lines 253-260). -/
def initParserState : ParserState := {}

/-- Model of `reset_kernel_state` (source line 266). -/
def resetKernelState (st : ParserState) : ParserState :=
  { st with current_file := none, ptxas_info := [], launch_params_str := [] }

/-- Model of `finalize_kernel` (source line 283): append the in-flight kernel, if
any, to the accumulated kernel list, then reset the kernel state. -/
def finalizeKernel (st : ParserState) : ParserState :=
  match st.current_file with
  | none => resetKernelState st
  | some f =>
    resetKernelState
      { st with
        kernels := st.kernels ++
          [mkCompiledKernel f (some st.ptxas_info) (some st.launch_params_str)] }

/-- Model of `finalize_test` (source line 293): asserts a test is in flight,
finalizes the in-flight kernel, stores a `CompiledTest` under the test's
name, and resets all test state. -/
def finalizeTestE (passed : Bool) (st : ParserState) :
    Except PyErr ParserState :=
  match st.current_test with
  | none => .error .assertionError
  | some t =>
    let st' := finalizeKernel st
    .ok { st' with
          kernel_map := alInsert t ⟨t, st'.kernels, passed, none⟩ st'.kernel_map,
          current_test := none, current_file := none,
          ptxas_info := [], launch_params_str := [], kernels := [] }

/-- The name of the synthetic test holding ungrouped kernels (source
line 303). -/
def ukKey : Str := "Ungrouped Kernels".toList

/-- Model of `finalize` (source line 301): at end of input, any accumulated
kernels are grouped under the synthetic "Ungrouped Kernels" test. -/
def finalizeParse (st : ParserState) : ParserState :=
  if st.kernels.isEmpty then st
  else { st with kernel_map := alInsert ukKey ⟨ukKey, st.kernels, true, none⟩ st.kernel_map }

/-- The fixed line markers of the shared protocol and the GoogleTest
recognizer. -/
def printingPfx : Str := "PRINTING: ".toList

/-- Marker of ptxas diagnostic lines. -/
def ptxasPfx : Str := "ptxas ".toList

/-- Marker of launch-parameter lines. -/
def launchPfx : Str := "Launch Parameters: ".toList

/-- GoogleTest `RUN` marker. -/
def runPfx : Str := "[ RUN      ] ".toList

/-- GoogleTest `OK` marker. -/
def okPfx : Str := "[       OK ] ".toList

/-- GoogleTest `FAILED` marker. -/
def failPfx : Str := "[  FAILED  ] ".toList

/-- Model of `LogParser.parse_line` (source lines 306-329).  Returns the new
state and whether the line was consumed.  The two warning branches
(diagnostic line with no kernel in flight) return unconsumed with the
state unchanged, exactly as the source returns `False` before mutating. -/
def baseParseLine (st : ParserState) (line : Str) : ParserState × Bool :=
  if line.take 10 = printingPfx then
    if line.drop (line.length - 3) = ".cu".toList then
      ({ finalizeKernel st with current_file := some (line.drop 10) }, true)
    else (st, true)
  else if line.take 6 = ptxasPfx then
    match st.current_file with
    | none => (st, false)
    | some _ => ({ st with ptxas_info := st.ptxas_info ++ line ++ ['\n'] }, true)
  else if line.take 19 = launchPfx then
    match st.current_file with
    | none => (st, false)
    | some _ =>
      ({ st with launch_params_str := st.launch_params_str ++ line ++ ['\n'] }, true)
  else (st, false)

/-- Model of `LogParserGTest.parse_line` (source lines 335-351): the shared
protocol first; then `RUN` opens a test, `OK` finalizes it as passed,
and `FAILED` finalizes it as failed only when both a test and a kernel
are in flight. -/
def gtestParseLine (st : ParserState) (line : Str) :
    Except PyErr ParserState :=
  let (st1, consumed) := baseParseLine st line
  if consumed then .ok st1
  else if line.take 13 = runPfx then
    .ok { st1 with current_test := some (line.drop 13) }
  else if line.take 13 = okPfx then
    finalizeTestE true st1
  else if line.take 13 = failPfx then
    if st1.current_test.isSome && st1.current_file.isSome then
      finalizeTestE false st1
    else .ok st1
  else .ok st1

/-- Fold `gtestParseLine` over the preprocessed lines of a log. -/
def gtestFold (st : ParserState) : List Str → Except PyErr ParserState
  | [] => .ok st
  | l :: ls => do gtestFold (← gtestParseLine st (preprocessLine l)) ls

/-- Model of `LogParserGTest` applied to a whole log (source lines 277-281 plus
`finalize`): the lines are the raw lines of the `stdout` file. -/
def parseGTestLog (lines : List Str) : Except PyErr ParserState :=
  (gtestFold initParserState lines).map finalizeParse

/-- Fold the base `LogParser.parse_line` over preprocessed lines (it
never raises). -/
def baseFold (st : ParserState) : List Str → ParserState
  | [] => st
  | l :: ls => baseFold (baseParseLine st (preprocessLine l)).1 ls

/-- The base `LogParser` applied to a whole log: everything is grouped
under "Ungrouped Kernels" at the end. -/
def parseBaseLog (lines : List Str) : ParserState :=
  finalizeParse (baseFold initParserState lines)

/-!
## `GitRev` (source lines 28-88)

The external `git` binary is a data source returning strings; its
outputs are passed in explicitly.  `__post_init__` iterates over the
lines of `git branch --quiet --color=never <hash>`: an empty line makes
`line[0]` raise `IndexError`, and a line whose first character is `*`
reaches `in_branches.append(line)` (source line 66) — but `in_branches`
is never defined anywhere, so Python raises `NameError` there.
-/

/-- The commit metadata record (source lines 30-38).  The source field
`abbrev` is a Lean keyword and is rendered `abbrev_hash`. -/
structure GitRevM where
  full_hash : Str
  diff : Option Str := none
  abbrev_hash : Str
  title : Str
  author_name : Str
  author_email : Str
  author_time : Str
  commit_time : Str
deriving DecidableEq, Repr

/-- The outputs of the `git` subprocess calls made by
`GitRev.__post_init__`, supplied as data. -/
structure GitCmdOutputs where
  rev_parse_short : Str
  branch_out : Str
  show_title : Str
  show_author_name : Str
  show_author_email : Str
  show_author_time : Str
  show_commit_time : Str
deriving DecidableEq, Repr

/-- The loop over `git branch` output lines (source lines 48-66):
`line[0]` on an empty line raises `IndexError`; a `*` line executes
`in_branches.append(line)` where `in_branches` is an undefined name,
raising `NameError`. -/
def branchLoop : List Str → Except PyErr Unit
  | [] => .ok ()
  | l :: rest =>
    match l with
    | [] => .error .indexError
    | c :: _ => if c = '*' then .error .nameError else branchLoop rest

/-- Model of `GitRev.__post_init__` (source lines 40-88) over the supplied
subprocess outputs. -/
def gitRevPostInit (full_hash : Str) (diff : Option Str)
    (g : GitCmdOutputs) : Except PyErr GitRevM := do
  let abb := pyStrip g.rev_parse_short
  let _ ← branchLoop (pySplitlines (pyStrip g.branch_out))
  .ok { full_hash := full_hash, diff := diff, abbrev_hash := abb,
        title := pyStrip g.show_title,
        author_name := pyStrip g.show_author_name,
        author_email := pyStrip g.show_author_email,
        author_time := pyStrip g.show_author_time,
        commit_time := pyStrip g.show_commit_time }

/-!
## `TestRun` (source lines 441-663)

A `TestRun` value is the state of the object after `__post_init__`; the
directory contents consumed lazily later (the `cuda/` and `ptx/`
sub-directories) are carried as explicit file maps.
-/

/-- The state of a `TestRun` after construction.  `cuda_files` and
`ptx_files` model the contents of `<directory>/cuda` and
`<directory>/ptx` (filename to file text). -/
structure TestRunM where
  directory : Str
  git : GitRevM
  name : Str
  command : Str
  command_type : CommandType
  exit_code : Int
  env : Option Str
  gpu_names : Option (List Str)
  nvcc_version : Option Str
  kernel_map : List (Str × CompiledTest)
  preamble : Str
  preamble_size_lines : Nat
  cuda_files : List (Str × Str)
  ptx_files : List (Str × Str)
deriving DecidableEq, Repr

/-!
### `TestRun.get_kernel` (source lines 584-613)

The code-string computation: keep (for `strip_preamble`) only lines with
index at least `preamble_size_lines`, apply the `nvfuser_<digits>`
normalization to each kept line, right-strip the concatenation, and then
— only when stripping — drop a single trailing `}` character (plus the
whitespace before it); `kern.code[-1]` on an empty string raises
`IndexError`.  The opportunistic `index_type` extraction (source
lines 594-597) fills a display-only field no claim concerns and is not
modelled.
-/

/-- The line-gathering loop of `get_kernel` (source lines 593-601),
starting at line index `i`. -/
def gatherCode (strip_preamble : Bool) (n : Nat) : Nat → List Str → Str
  | _, [] => []
  | i, l :: ls =>
    (if !strip_preamble || n ≤ i then subNvfuser l else []) ++
      gatherCode strip_preamble n (i + 1) ls

/-- The code string produced by `get_kernel` from the raw lines of a
`.cu` file, given the run's detected preamble line count (source
lines 591-605). -/
def getCode (n : Nat) (strip_preamble : Bool) (lines : List Str) :
    Except PyErr Str :=
  let code := pyRstrip (gatherCode strip_preamble n 0 lines)
  if strip_preamble then
    if code = [] then .error .indexError
    else if code.getLast? = some '}' then .ok (pyRstrip code.dropLast)
    else .ok code
  else .ok code

/-- Model of `os.path.splitext(basename)[0] + ".ptx"` (source line 607), for
filenames that contain an extension (all kernel files are `<n>.cu`). -/
def ptxNameOf (basename : Str) : Str :=
  ((basename.reverse.dropWhile (fun c => c ≠ '.')).drop 1).reverse ++ ".ptx".toList

/-- Model of `TestRun.get_kernel` (source lines 584-613): look up the kernel,
read its `.cu` file (absence raises `FileNotFoundError`), compute the
code string, and attach the `.ptx` text when present (absence of the
`.ptx` file is caught and ignored).  The source mutates the kernel
object stored in the map; the model returns the updated kernel. -/
def getKernelRun (tr : TestRunM) (test_name : Str) (kernel_number : Nat)
    (strip_preamble : Bool) : Except PyErr CompiledKernel := do
  let t ← match alLookup test_name tr.kernel_map with
    | some t => Except.ok t
    | none => Except.error PyErr.keyError
  let kern ← match t.kernels.get? kernel_number with
    | some k => Except.ok k
    | none => Except.error PyErr.indexError
  let content ← match alLookup kern.filename tr.cuda_files with
    | some c => Except.ok c
    | none => Except.error PyErr.fileNotFoundError
  let code ← getCode tr.preamble_size_lines strip_preamble (pyReadlines content)
  let kern := { kern with code := some code }
  let kern := match alLookup (ptxNameOf kern.filename) tr.ptx_files with
    | some p => { kern with ptx := some (pyRstrip p) }
    | none => kern
  .ok kern

/-!
### `TestRun.join` (source lines 615-663)
-/

/-- Python string formatting of an optional string: `f"{x}"` renders
`None` as the four characters `None`. -/
def pyFmtOptStr : Option Str → Str
  | some s => s
  | none => "None".toList

/-- The kernel-map merging loop of `join` (source lines 645-663),
iterating over the donor's entries in order.  `assert` failures are
`AssertionError`s. -/
def joinMapFold : List (Str × CompiledTest) → List (Str × CompiledTest) →
    Except PyErr (List (Str × CompiledTest))
  | m, [] => .ok m
  | m, (test_name, test_obj) :: rest =>
    if test_obj.name ≠ test_name then .error .assertionError
    else if test_name = ukKey then
      match alLookup test_name m with
      | some existing =>
        if existing.benchmark_result ≠ none then .error .assertionError
        else if test_obj.benchmark_result ≠ none then .error .assertionError
        else
          joinMapFold
            (alInsert test_name
              { existing with
                kernels := existing.kernels ++ test_obj.kernels,
                passed := existing.passed && test_obj.passed } m)
            rest
      | none => joinMapFold (alInsert test_name test_obj m) rest
    else if (alLookup test_name m).isSome then .error .assertionError
    else joinMapFold (alInsert test_name test_obj m) rest

/-- Model of `self.nvcc_version += other.nvcc_version` under
`if other.nvcc_version != self.nvcc_version` (source lines 626-627):
`+=` with a `None` operand raises `TypeError`. -/
def joinNvcc (a b : Option Str) : Except PyErr (Option Str) :=
  if b ≠ a then
    match a, b with
    | some x, some y => .ok (some (x ++ y))
    | _, _ => .error .typeError
  else .ok a

/-- Model of `self.env += f"\n{other.env}"` under `if other.env != self.env`
(source lines 632-633): a `None` receiver raises `TypeError`, while a
`None` donor is formatted as the literal text `None`. -/
def joinEnv (a b : Option Str) : Except PyErr (Option Str) :=
  if b ≠ a then
    match a with
    | some x => .ok (some (x ++ '\n' :: pyFmtOptStr b))
    | none => .error .typeError
  else .ok a

/-- Model of `self.gpu_names += other.gpu_names` (source line 636), unconditional:
either side being `None` raises `TypeError`. -/
def joinGpus (a b : Option (List Str)) : Except PyErr (Option (List Str)) :=
  match a, b with
  | some x, some y => .ok (some (x ++ y))
  | _, _ => .error .typeError

/-- Model of `TestRun.join` (source lines 615-663): merge a donor shard into the
receiver.  The four leading `assert`s require identical git revision,
preamble line count, preamble text and command type. -/
def joinRuns (tr other : TestRunM) : Except PyErr TestRunM :=
  if tr.git ≠ other.git then .error .assertionError
  else if tr.preamble_size_lines ≠ other.preamble_size_lines then
    .error .assertionError
  else if tr.preamble ≠ other.preamble then .error .assertionError
  else if tr.command_type ≠ other.command_type then .error .assertionError
  else
    joinNvcc tr.nvcc_version other.nvcc_version >>= fun nvcc =>
    joinEnv tr.env other.env >>= fun env =>
    joinGpus tr.gpu_names other.gpu_names >>= fun gpus =>
    joinMapFold tr.kernel_map other.kernel_map >>= fun km =>
    .ok { tr with
          nvcc_version := nvcc, env := env, gpu_names := gpus,
          command := tr.command ++ " && ".toList ++ other.command,
          exit_code := tr.exit_code + other.exit_code,
          kernel_map := km }

/-!
## Diff artifacts (source lines 666-934) and the `diff` subcommand
(source lines 1014-1044)
-/

/-- Modelled from the spec: `difflib.unified_diff` is a Python
standard-library collaborator external to this repository ("Unified
diff: a line-level diff format with surrounding context lines,
additions/removals marked").  The tool relies only on the line list
being empty exactly when the two inputs are equal: equal sequences
produce no output at all, while unequal sequences produce at least the
two `---`/`+++` header lines.  The hunk construction itself is not
modelled; unequal inputs yield the headers followed by naive
removal/addition markers. -/
def unifiedDiffModel (a b : List Str) (fromname toname : Str) : List Str :=
  if a = b then []
  else
    ("--- ".toList ++ fromname) :: ("+++ ".toList ++ toname) ::
      ((a.filter (fun l => l ∉ b)).map (fun l => '-' :: l) ++
        (b.filter (fun l => l ∉ a)).map (fun l => '+' :: l))

/-- The unified diff of equal inputs is empty. -/
theorem unifiedDiffModel_self (a : List Str) (f t : Str) :
    unifiedDiffModel a a f t = [] := by
  simp [unifiedDiffModel]

/-- Model of `sanitize_ptx_lines` (source lines 710-740).  The comment-stripping
pass `re.sub(r"//.*$", "", l)` removes everything from the first `//`;
the mangled-name demangling (source lines 722-735) rewrites a
display-only detail that no claim concerns and is not modelled. -/
def stripLineComment : Str → Str
  | [] => []
  | '/' :: '/' :: _ => []
  | c :: cs => c :: stripLineComment cs

/-- Model of `sanitize_ptx_lines` applied to a list of PTX lines. -/
def sanitizePtxLines (lines : List Str) : List Str :=
  lines.map stripLineComment

/-- Model of `KernelDiff` (source lines 666-698). -/
structure KernelDiff where
  testname : Str
  kernel_num : Nat
  kernel1 : CompiledKernel
  kernel2 : CompiledKernel
  diff : Str
  new_lines : Nat
  removed_lines : Nat
  ptx_diff : Option Str
  new_ptx_lines : Nat
  removed_ptx_lines : Nat
deriving DecidableEq, Repr

/-- Model of `KernelDiff.__post_init__` (source lines 682-698): join the diff
lines and count lines starting with `"+ "` / `"- "`. -/
def mkKernelDiff (testname : Str) (kernel_num : Nat)
    (k1 k2 : CompiledKernel) (diff_lines : List Str)
    (ptx_diff_lines : Option (List Str)) : KernelDiff :=
  { testname := testname, kernel_num := kernel_num,
    kernel1 := k1, kernel2 := k2,
    diff := pyJoin ['\n'] diff_lines,
    new_lines := (diff_lines.filter (fun l => l.take 2 = "+ ".toList)).length,
    removed_lines := (diff_lines.filter (fun l => l.take 2 = "- ".toList)).length,
    ptx_diff := ptx_diff_lines.map (pyJoin ['\n']),
    new_ptx_lines :=
      ((ptx_diff_lines.getD []).filter (fun l => l.take 2 = "+ ".toList)).length,
    removed_ptx_lines :=
      ((ptx_diff_lines.getD []).filter (fun l => l.take 2 = "- ".toList)).length }

/-- Model of `TestDiff` (source lines 701-707): two compared `CompiledTest`s with
either a full per-kernel diff list or `none` (kernel counts mismatched). -/
structure TestDiff where
  testname : Str
  test1 : CompiledTest
  test2 : CompiledTest
  kernel_diffs : Option (List KernelDiff) := none
deriving DecidableEq, Repr

/-- The `--kernel-inclusion-criterion` choices (source line 1000). -/
inductive Criterion where
  | all
  | mismatched_cuda_or_ptx
  | mismatched_ptx
deriving DecidableEq, Repr

/-- The kernel-pair inclusion test of source lines 850-863. -/
def includeKernel (crit : Criterion) (diff_lines : List Str)
    (ptx_diff_lines : Option (List Str)) : Bool :=
  crit = Criterion.all ||
    (crit = Criterion.mismatched_cuda_or_ptx && !diff_lines.isEmpty) ||
    ((crit = Criterion.mismatched_cuda_or_ptx || crit = Criterion.mismatched_ptx) &&
      ptx_diff_lines.isSome && !(ptx_diff_lines.getD []).isEmpty)

/-- Model of `assert kern.code is not None` followed by use of the code string
(source lines 826-827): a missing code string is an `AssertionError`. -/
def codeOf (k : CompiledKernel) : Except PyErr Str :=
  match k.code with
  | some c => .ok c
  | none => .error .assertionError

/-- The per-kernel loop of `TestDifferences.__post_init__` (source
lines 822-875) over kernel indices `i, i+1, …` (`m` more to go):
load both kernels with preamble stripping, diff the code (and the
sanitized PTX when both sides have it), and collect a `KernelDiff` when
the inclusion criterion admits the pair.  Returns the collected diffs
and the number of diffs counted into `total_num_diffs`. -/
def kernelLoop (tr1 tr2 : TestRunM) (crit : Criterion) (testname : Str) :
    Nat → Nat → Except PyErr (List KernelDiff × Nat)
  | _, 0 => .ok ([], 0)
  | i, m + 1 => do
    let kern1 ← getKernelRun tr1 testname i true
    let kern2 ← getKernelRun tr2 testname i true
    let code1 ← codeOf kern1
    let code2 ← codeOf kern2
    let ptx_diff_lines : Option (List Str) :=
      match kern1.ptx, kern2.ptx with
      | some p1, some p2 =>
        some (unifiedDiffModel (sanitizePtxLines (pySplitlines p1))
          (sanitizePtxLines (pySplitlines p2)) tr1.name tr2.name)
      | _, _ => none
    let diff_lines :=
      unifiedDiffModel (pySplitlines code1) (pySplitlines code2) tr1.name tr2.name
    let (rest, n) ← kernelLoop tr1 tr2 crit testname (i + 1) m
    if includeKernel crit diff_lines ptx_diff_lines then
      .ok (mkKernelDiff testname (i + 1) kern1 kern2 diff_lines ptx_diff_lines :: rest,
        n + 1)
    else .ok (rest, n)

/-- The body of the shared-test branch of the main loop (source
lines 801-885): a kernel-count mismatch records a `TestDiff` with a
`none` kernel-diff list (and warns), and the per-kernel loop over the
first `min` kernels runs in either case, appending a second `TestDiff`
when it collected any diffs.  Returns the `TestDiff`s this test
contributes (in order) and its `total_num_diffs` contribution. -/
def processShared (tr1 tr2 : TestRunM) (crit : Criterion) (testname : Str)
    (t1 t2 : CompiledTest) : Except PyErr (List TestDiff × Nat) := do
  let c1 := t1.kernels.length
  let c2 := t2.kernels.length
  let mismatchDiffs : List TestDiff :=
    if c1 ≠ c2 then [{ testname := testname, test1 := t1, test2 := t2,
                       kernel_diffs := none }] else []
  let (kds, n) ← kernelLoop tr1 tr2 crit testname 0 (min c1 c2)
  let kdDiffs : List TestDiff :=
    if kds.isEmpty then []
    else [{ testname := testname, test1 := t1, test2 := t2,
            kernel_diffs := some kds }]
  .ok (mismatchDiffs ++ kdDiffs, n)

/-- Load kernels `0 … count-1` of a test present in only one run
(source lines 793-797 and 888-892): `get_kernel` with default
`strip_preamble=True`. -/
def loadAllKernels (tr : TestRunM) (testname : Str) :
    Nat → Nat → Except PyErr (List CompiledKernel)
  | _, 0 => .ok []
  | i, m + 1 => do
    let k ← getKernelRun tr testname i true
    let rest ← loadAllKernels tr testname (i + 1) m
    .ok (k :: rest)

/-- The main loop of `TestDifferences.__post_init__` over the first
run's tests (source lines 792-885).  Returns the accumulated test
diffs, removed tests, and `total_num_diffs`. -/
def diffLoop1 (tr1 tr2 : TestRunM) (crit : Criterion) :
    List (Str × CompiledTest) →
    Except PyErr (List TestDiff × List CompiledTest × Nat)
  | [] => .ok ([], [], 0)
  | (testname, t1) :: rest =>
    match alLookup testname tr2.kernel_map with
    | none => do
      let ks ← loadAllKernels tr1 testname 0 t1.kernels.length
      let (tds, removed, n) ← diffLoop1 tr1 tr2 crit rest
      .ok (tds, { t1 with kernels := ks } :: removed, n)
    | some t2 => do
      let (tds0, n0) ← processShared tr1 tr2 crit testname t1 t2
      let (tds, removed, n) ← diffLoop1 tr1 tr2 crit rest
      .ok (tds0 ++ tds, removed, n0 + n)

/-- The second loop of `TestDifferences.__post_init__` (source
lines 887-893): tests only in the second run become new tests, with
their kernels loaded eagerly. -/
def diffLoop2 (tr1 tr2 : TestRunM) :
    List (Str × CompiledTest) → Except PyErr (List CompiledTest)
  | [] => .ok []
  | (testname, t2) :: rest =>
    match alLookup testname tr1.kernel_map with
    | some _ => diffLoop2 tr1 tr2 rest
    | none => do
      let ks ← loadAllKernels tr2 testname 0 t2.kernels.length
      let news ← diffLoop2 tr1 tr2 rest
      .ok ({ t2 with kernels := ks } :: news)

/-- Model of `TestDifferences` (source lines 743-893): the derived diff record. -/
structure TestDifferences where
  run1 : TestRunM
  run2 : TestRunM
  test_diffs : List TestDiff
  new_tests : List CompiledTest
  removed_tests : List CompiledTest
  total_num_diffs : Nat
  preamble_diff : Str
  env_diff : Str
deriving DecidableEq, Repr

/-- Model of `run.env.splitlines()` (source lines 783-784): a `None` env raises
`AttributeError`. -/
def envOf (tr : TestRunM) : Except PyErr Str :=
  match tr.env with
  | some e => .ok e
  | none => .error .attributeError

/-- Model of `TestDifferences.__post_init__` (source lines 758-893): the
command/exit-code warnings print only; the preamble diff is computed,
then the env diff (`None.splitlines()` raises `AttributeError`), then
the two test loops run. -/
def mkTestDifferences (tr1 tr2 : TestRunM) (crit : Criterion) :
    Except PyErr TestDifferences := do
  let preamble_diff := pyJoin ['\n']
    (unifiedDiffModel (pySplitlines tr1.preamble) (pySplitlines tr2.preamble)
      tr1.name tr2.name)
  let env1 ← envOf tr1
  let env2 ← envOf tr2
  let env_diff := pyJoin ['\n']
    (unifiedDiffModel (pySplitlines env1) (pySplitlines env2) tr1.name tr2.name)
  let (tds, removed, n) ← diffLoop1 tr1 tr2 crit tr1.kernel_map
  let news ← diffLoop2 tr1 tr2 tr2.kernel_map
  .ok { run1 := tr1, run2 := tr2, test_diffs := tds, new_tests := news,
        removed_tests := removed, total_num_diffs := n,
        preamble_diff := preamble_diff, env_diff := env_diff }

/-- The process outcome of the `diff` subcommand (source line 1044):
`exit(1 if len(td.test_diffs) > 0 or len(td.preamble_diff) > 0 else 0)`. -/
def diffExitCode (td : TestDifferences) : Nat :=
  if 0 < td.test_diffs.length || 0 < td.preamble_diff.length then 1 else 0

/-!
## Claims
-/

/-- The ptxas diagnostic block of the C5 scenario (the `Used …` line of
the example at source line 133). -/
def ptxasExample : Str :=
  "ptxas info    : Used 203 registers, 16 bytes smem, 472 bytes cmem[0], 8 bytes cmem[2]".toList

/-- The kernel record parsed from `ptxasExample`. -/
def c5Kernel : CompiledKernel :=
  mkCompiledKernel "k.cu".toList (some ptxasExample) none

/-- Claim C5 counterexample: the claim states that the block
`"… 472 bytes cmem[0], 8 bytes cmem[2]"` parses into
`cmem_bank_bytes = [472, 8]`, but `parse_ptxas` builds a bank-indexed
list zero-filled between banks (source lines 158-166), so bank 1 is
present as 0 and the value is `[472, 0, 8]`, not `[472, 8]`. -/
theorem C5_counterexample :
    c5Kernel.cmem_bank_bytes = some [472, 0, 8] ∧
      c5Kernel.cmem_bank_bytes ≠ some [472, 8] := by
  constructor
  · rfl
  · decide

/-- Claim C5 (amended): the block parses into registers = 203,
smem_bytes = 16, and cmem_bank_bytes = [472, 0, 8] (a bank-indexed list
with the unreported bank 1 zero-filled). -/
theorem C5_amended :
    c5Kernel.registers = some 203 ∧ c5Kernel.smem_bytes = 16 ∧
      c5Kernel.cmem_bank_bytes = some [472, 0, 8] := by
  refine ⟨rfl, rfl, rfl⟩

/-- The stripping branch of `gatherCode` keeps exactly the lines from
index `n - i` on. -/
theorem gatherCode_strip (n : Nat) :
    ∀ (i : Nat) (ls : List Str),
      gatherCode true n i ls = ((ls.drop (n - i)).map subNvfuser).flatten := by
  intro i ls
  induction ls generalizing i with
  | nil => simp [gatherCode]
  | cons l ls ih =>
    by_cases h : n ≤ i
    · have h1 : n - i = 0 := by omega
      have h2 : n - (i + 1) = 0 := by omega
      rw [show gatherCode true n i (l :: ls) =
        subNvfuser l ++ gatherCode true n (i + 1) ls from by
          simp [gatherCode, h]]
      rw [ih (i + 1), h1, h2]
      simp
    · have h1 : n - i = (n - (i + 1)) + 1 := by omega
      rw [show gatherCode true n i (l :: ls) = gatherCode true n (i + 1) ls from by
        simp [gatherCode, h]]
      rw [ih (i + 1), h1]
      simp

/-- Claim C8 counterexample: the claim states a trailing closing-brace
line is dropped if and only if the last retained line is exactly `}`.
But the code checks only the last character (source line 603): for a
file whose single line is `a}`, the last retained line is `a}`, not `}`,
yet the trailing `}` character is dropped and the code string becomes
`a` instead of `a}`. -/
theorem C8_counterexample :
    getCode 0 true ["a\x7d\n".toList] = Except.ok ['a'] ∧
      (['a'] : Str) ≠ "a\x7d".toList := by
  exact ⟨rfl, by decide⟩

/-- Claim C8 (amended): with stripping requested, exactly the lines at
indices at or past the preamble line count are kept (normalized); after
right-stripping the concatenation, an empty result raises `IndexError`,
and a single trailing `}` character — not necessarily a full `}` line —
is dropped (with the whitespace before it) if and only if the last
character of the retained text is `}`. -/
theorem C8_amended (n : Nat) (lines : List Str) :
    getCode n true lines =
      (if pyRstrip (((lines.drop n).map subNvfuser).flatten) = [] then
        Except.error PyErr.indexError
      else if (pyRstrip (((lines.drop n).map subNvfuser).flatten)).getLast? =
          some '}' then
        Except.ok (pyRstrip
          (pyRstrip (((lines.drop n).map subNvfuser).flatten)).dropLast)
      else Except.ok (pyRstrip (((lines.drop n).map subNvfuser).flatten))) := by
  have h := gatherCode_strip n 0 lines
  simp only [Nat.sub_zero] at h
  unfold getCode
  rw [h]
  rfl

/-- Claim C6: for any two kernel source bodies (as lists of raw file
lines) that differ only in the numeric suffixes of their
`nvfuser_<digits>` identifiers (the relation `NvfRel false`, line by
line), loading each through the `get_kernel` code computation with
preamble stripping produces equal normalized code strings. -/
theorem C6_normalization_equal (n : Nat) (lines1 lines2 : List Str)
    (hrel : List.Forall₂ (NvfRel false) lines1 lines2) :
    getCode n true lines1 = getCode n true lines2 := by
  have hg : ∀ i, gatherCode true n i lines1 = gatherCode true n i lines2 := by
    induction hrel with
    | nil => intro i; rfl
    | cons h htail ih =>
      intro i
      show (if !true || n ≤ i then subNvfuser _ else []) ++ _ =
        (if !true || n ≤ i then subNvfuser _ else []) ++ _
      rw [subNvfuser_rel h, ih (i + 1)]
  unfold getCode
  rw [hg 0]

/-- The first C6 witness body line: `nvfuser_12()\n`. -/
def c6Line1 : Str := nvfLit ++ ('1' :: '2' :: []) ++ ('(' :: ')' :: '\n' :: [])

/-- The second C6 witness body line: `nvfuser_7()\n`. -/
def c6Line2 : Str := nvfLit ++ ('7' :: []) ++ ('(' :: ')' :: '\n' :: [])

/-- The two C6 witness bodies differ only in the identifier's numeric
suffix. -/
theorem c6LinesRel : List.Forall₂ (NvfRel false) [c6Line1] [c6Line2] := by
  refine List.Forall₂.cons ?_ List.Forall₂.nil
  unfold c6Line1 c6Line2
  exact NvfRel.ident (by decide) (by decide) (by decide) (by decide)
    (by decide) (by decide) (nvfRel_refl true _)

/-- Witness for C6 at the concrete bodies `nvfuser_12()` and
`nvfuser_7()`. -/
theorem C6_witness :
    List.Forall₂ (NvfRel false) [c6Line1] [c6Line2] ∧
      getCode 0 true [c6Line1] = getCode 0 true [c6Line2] :=
  ⟨c6LinesRel, C6_normalization_equal 0 [c6Line1] [c6Line2] c6LinesRel⟩

/-- The branch loop raises `NameError` when the first empty-or-starred
line is starred. -/
theorem branchLoop_nameError :
    ∀ (ls : List Str), (∀ l ∈ ls, l ≠ []) → (∃ l ∈ ls, l.headI = '*') →
      branchLoop ls = .error .nameError := by
  intro ls
  induction ls with
  | nil =>
    intro _ h
    simp at h
  | cons l rest ih =>
    intro hne hstar
    cases l with
    | nil => exact absurd rfl (hne [] (by simp))
    | cons c cs =>
      by_cases hc : c = '*'
      · simp [branchLoop, hc]
      · have hstar' : ∃ l ∈ rest, l.headI = '*' := by
          rcases hstar with ⟨l', hl', hstarl⟩
          rcases List.mem_cons.mp hl' with h | h
          · subst h
            simp [List.headI] at hstarl
            exact absurd hstarl hc
          · exact ⟨l', h, hstarl⟩
        rw [show branchLoop ((c :: cs) :: rest) = branchLoop rest from by
          simp [branchLoop, hc]]
        exact ih (fun x hx => hne x (by simp [hx])) hstar'

/-- Claim C10: whenever the stripped output of the `git branch` query
contains a line whose first character is `*` (and, as for any real `git
branch` output, no empty interior line precedes it), `GitRev`
construction raises an unhandled `NameError` — `in_branches.append(line)`
at source line 66 references the never-defined name `in_branches` —
instead of completing and yielding metadata fields. -/
theorem C10_git_star_nameError (full_hash : Str) (d : Option Str)
    (g : GitCmdOutputs)
    (hne : ∀ l ∈ pySplitlines (pyStrip g.branch_out), l ≠ [])
    (hstar : ∃ l ∈ pySplitlines (pyStrip g.branch_out), l.headI = '*') :
    gitRevPostInit full_hash d g = .error .nameError := by
  unfold gitRevPostInit
  rw [branchLoop_nameError _ hne hstar]
  rfl

/-- The branch output of the source's own example (source lines 57-63):
`main` then `* scalar_seg_edges`. -/
def c10Branches : GitCmdOutputs :=
  { rev_parse_short := "abc123".toList,
    branch_out := "  main\n* scalar_seg_edges\n".toList,
    show_title := "t".toList, show_author_name := "a".toList,
    show_author_email := "e".toList, show_author_time := "at".toList,
    show_commit_time := "ct".toList }

/-- Witness for C10 at the source's own documented example output. -/
theorem C10_witness :
    (∀ l ∈ pySplitlines (pyStrip c10Branches.branch_out), l ≠ []) ∧
      (∃ l ∈ pySplitlines (pyStrip c10Branches.branch_out), l.headI = '*') ∧
      gitRevPostInit "deadbeef".toList none c10Branches =
        .error .nameError :=
  ⟨by decide, by decide,
    C10_git_star_nameError "deadbeef".toList none c10Branches
      (by decide) (by decide)⟩

/-- Claim C4 counterexample: the claim states a `FAILED` line finalizes
the current test whenever a kernel *or* test is in flight.  In the log
`[ RUN … ] MyTest.Foo` followed directly by `[  FAILED  ] MyTest.Foo`, a
test is in flight when the `FAILED` line arrives (first conjunct), yet
nothing is finalized — the final kernel map is empty (second conjunct) —
because the source (line 344) requires a test *and* a kernel file to be
in flight. -/
theorem C4_counterexample :
    (gtestParseLine initParserState
        (preprocessLine "[ RUN      ] MyTest.Foo".toList)).map
        (fun s => s.current_test) = .ok (some "MyTest.Foo".toList) ∧
      (parseGTestLog ["[ RUN      ] MyTest.Foo".toList,
          "[  FAILED  ] MyTest.Foo".toList]).map
        (fun st => st.kernel_map) = .ok [] := by
  exact ⟨rfl, rfl⟩

/-- Claim C4 (amended): a line with the `FAILED` prefix finalizes the
current test as failed exactly when both a test and a kernel are in
flight (`current_test` and `current_file` both set); otherwise — in
particular for the trailing failure-summary block, which repeats failed
test names after the per-test state has been reset — it is ignored and
the state is unchanged. -/
theorem C4_amended (st : ParserState) (r : Str) :
    gtestParseLine st (failPfx ++ r) =
      (if st.current_test.isSome && st.current_file.isSome then
        finalizeTestE false st
      else .ok st) := by
  have hlen : failPfx.length = 13 := by decide
  have htake13 : (failPfx ++ r).take 13 = failPfx := List.take_left' hlen
  have htake10 : (failPfx ++ r).take 10 ≠ printingPfx := by
    rw [List.take_append_eq_append_take, hlen]
    rw [show (10 : Nat) - 13 = 0 from rfl, List.take_zero, List.append_nil]
    decide
  have htake6 : (failPfx ++ r).take 6 ≠ ptxasPfx := by
    rw [List.take_append_eq_append_take, hlen]
    rw [show (6 : Nat) - 13 = 0 from rfl, List.take_zero, List.append_nil]
    decide
  have htake19 : (failPfx ++ r).take 19 ≠ launchPfx := by
    intro heq
    have h2 := congrArg (List.take 13) heq
    rw [List.take_take] at h2
    rw [show min 13 19 = 13 from rfl, htake13] at h2
    exact absurd h2 (by decide)
  have hbase : baseParseLine st (failPfx ++ r) = (st, false) := by
    unfold baseParseLine
    rw [if_neg htake10, if_neg htake6, if_neg htake19]
  have hrun : failPfx ≠ runPfx := by decide
  have hok : failPfx ≠ okPfx := by decide
  unfold gtestParseLine
  rw [hbase]
  simp only [htake13, if_neg hrun, if_neg hok, if_pos rfl]
  simp

/-- Peel one `Except` bind from a successful computation. -/
theorem exceptBind_ok {ε α β : Type} {e : Except ε α} {f : α → Except ε β}
    {v : β} (h : (e >>= f) = .ok v) : ∃ x, e = .ok x ∧ f x = .ok v := by
  cases e with
  | error err => simp [Bind.bind, Except.bind] at h
  | ok x => exact ⟨x, rfl, by simpa [Bind.bind, Except.bind] using h⟩

/-- If the kernel-map merging loop succeeds, no key present in the
receiver also names a donor entry, except the ungrouped-kernels key. -/
theorem joinMapFold_only_uk :
    ∀ (entries m m' : List (Str × CompiledTest)),
      joinMapFold m entries = .ok m' →
      ∀ k, (alLookup k m).isSome → (∃ t, (k, t) ∈ entries) → k = ukKey := by
  intro entries
  induction entries with
  | nil =>
    intro m m' _ k _ hmem
    obtain ⟨t, ht⟩ := hmem
    simp at ht
  | cons e rest ih =>
    intro m m' h k hk hmem
    obtain ⟨k0, t0⟩ := e
    unfold joinMapFold at h
    split at h
    · exact absurd h (by simp)
    split at h
    · next hk0 =>
      obtain ⟨t, ht⟩ := hmem
      rcases List.mem_cons.mp ht with heq | hmem'
      · injection heq with h1 _
        rw [h1]
        exact hk0
      · cases hl : alLookup k0 m with
        | some existing =>
          simp only [hl] at h
          by_cases hb1 : existing.benchmark_result ≠ none
          · rw [if_pos hb1] at h
            exact absurd h (by simp)
          · rw [if_neg hb1] at h
            by_cases hb2 : t0.benchmark_result ≠ none
            · rw [if_pos hb2] at h
              exact absurd h (by simp)
            · rw [if_neg hb2] at h
              exact ih _ _ h k (alInsert_lookup_mono hk) ⟨t, hmem'⟩
        | none =>
          simp only [hl] at h
          exact ih _ _ h k (alInsert_lookup_mono hk) ⟨t, hmem'⟩
    · next hk0 =>
      split at h
      · exact absurd h (by simp)
      next hck =>
      obtain ⟨t, ht⟩ := hmem
      rcases List.mem_cons.mp ht with heq | hmem'
      · injection heq with h1 _
        rw [h1] at hk
        exact absurd hk (by simpa using hck)
      · exact ih _ _ h k (alInsert_lookup_mono hk) ⟨t, hmem'⟩

/-- Claim C3: `TestRun.join` succeeds only when both runs have identical
git revision, identical preamble text and preamble line count, and
identical command type, and when no test name other than the single
ungrouped-kernels key occurs in both kernel maps; any violation of these
preconditions makes the merge abort with a hard (`assert`) error, which
is the contrapositive of this success implication. -/
theorem C3_join_preconditions (tr other res : TestRunM)
    (h : joinRuns tr other = .ok res) :
    tr.git = other.git ∧ tr.preamble = other.preamble ∧
      tr.preamble_size_lines = other.preamble_size_lines ∧
      tr.command_type = other.command_type ∧
      ∀ k, (alLookup k tr.kernel_map).isSome →
        (alLookup k other.kernel_map).isSome → k = ukKey := by
  unfold joinRuns at h
  split at h
  · exact absurd h (by simp)
  next hgit =>
  split at h
  · exact absurd h (by simp)
  next hsize =>
  split at h
  · exact absurd h (by simp)
  next hpre =>
  split at h
  · exact absurd h (by simp)
  next hct =>
  obtain ⟨nvcc, _, h⟩ := exceptBind_ok h
  obtain ⟨env, _, h⟩ := exceptBind_ok h
  obtain ⟨gpus, _, h⟩ := exceptBind_ok h
  obtain ⟨km, hkm, _⟩ := exceptBind_ok h
  refine ⟨not_ne_iff.mp hgit, not_ne_iff.mp hpre, not_ne_iff.mp hsize,
    not_ne_iff.mp hct, ?_⟩
  intro k hk1 hk2
  obtain ⟨t, ht⟩ := Option.isSome_iff_exists.mp hk2
  exact joinMapFold_only_uk _ _ _ hkm k hk1 ⟨t, alLookup_mem ht⟩

/-- A shared git revision record for the witness runs. -/
def wGit : GitRevM :=
  { full_hash := "h".toList, diff := none, abbrev_hash := "h".toList,
    title := [], author_name := [], author_email := [], author_time := [],
    commit_time := [] }

/-- Witness run 1 for the join claim: a single test named `a`. -/
def wJoin1 : TestRunM :=
  { directory := "d1".toList, git := wGit, name := "s1".toList,
    command := "c1".toList, command_type := CommandType.GOOGLETEST,
    exit_code := 0, env := some "E".toList, gpu_names := some [],
    nvcc_version := some "v".toList,
    kernel_map := [("a".toList, { name := "a".toList, kernels := [] })],
    preamble := [], preamble_size_lines := 0, cuda_files := [],
    ptx_files := [] }

/-- Witness run 2 for the join claim: a single test named `b`. -/
def wJoin2 : TestRunM :=
  { wJoin1 with
    directory := "d2".toList,
    name := "s2".toList,
    command := "c2".toList,
    kernel_map := [("b".toList, { name := "b".toList, kernels := [] })] }

/-- The successful merge of the two witness runs. -/
def wJoined : TestRunM :=
  match joinRuns wJoin1 wJoin2 with
  | .ok r => r
  | .error _ => wJoin1

/-- Witness for C3 at a concrete successful join. -/
theorem C3_witness :
    joinRuns wJoin1 wJoin2 = .ok wJoined ∧
      (wJoin1.git = wJoin2.git ∧ wJoin1.preamble = wJoin2.preamble ∧
        wJoin1.preamble_size_lines = wJoin2.preamble_size_lines ∧
        wJoin1.command_type = wJoin2.command_type ∧
        ∀ k, (alLookup k wJoin1.kernel_map).isSome →
          (alLookup k wJoin2.kernel_map).isSome → k = ukKey) :=
  ⟨rfl, C3_join_preconditions wJoin1 wJoin2 wJoined rfl⟩

/-- The kernel-map invariant of claim C9: every stored test's name
equals its map key, and every key is non-empty. -/
def mapKeysOk (m : List (Str × CompiledTest)) : Prop :=
  ∀ p ∈ m, p.2.name = p.1 ∧ p.1 ≠ []

instance (m : List (Str × CompiledTest)) : Decidable (mapKeysOk m) := by
  unfold mapKeysOk
  infer_instance

/-- Insertion of a good entry preserves the invariant. -/
theorem mapKeysOk_insert {m : List (Str × CompiledTest)} {k : Str}
    {v : CompiledTest} (hm : mapKeysOk m) (hv : v.name = k) (hk : k ≠ []) :
    mapKeysOk (alInsert k v m) := by
  intro p hp
  rcases alInsert_mem hp with h | h
  · subst h
    exact ⟨hv, hk⟩
  · exact hm p h

/-- The `finalize_kernel` changes neither the kernel map nor the current
test. -/
theorem finalizeKernel_frame (st : ParserState) :
    (finalizeKernel st).kernel_map = st.kernel_map ∧
      (finalizeKernel st).current_test = st.current_test := by
  unfold finalizeKernel resetKernelState
  cases st.current_file <;> exact ⟨rfl, rfl⟩

/-- The shared protocol `parse_line` changes neither the kernel map nor
the current test. -/
theorem baseParseLine_frame (st : ParserState) (l : Str) :
    (baseParseLine st l).1.kernel_map = st.kernel_map ∧
      (baseParseLine st l).1.current_test = st.current_test := by
  unfold baseParseLine
  split
  · split
    · exact ⟨(finalizeKernel_frame st).1, (finalizeKernel_frame st).2⟩
    · exact ⟨rfl, rfl⟩
  · split
    · cases st.current_file <;> exact ⟨rfl, rfl⟩
    · split
      · cases st.current_file <;> exact ⟨rfl, rfl⟩
      · exact ⟨rfl, rfl⟩

/-- The parser-state invariant carried through a GoogleTest parse: the
kernel map is well-keyed, and any in-flight test name is non-empty. -/
def stInv (st : ParserState) : Prop :=
  mapKeysOk st.kernel_map ∧ ∀ t, st.current_test = some t → t ≠ []

/-- The `finalize_test` preserves the invariant. -/
theorem finalizeTestE_inv {passed : Bool} {st st' : ParserState}
    (hinv : stInv st) (h : finalizeTestE passed st = .ok st') :
    stInv st' := by
  unfold finalizeTestE at h
  cases hct : st.current_test with
  | none =>
    rw [hct] at h
    exact absurd h (by simp)
  | some t =>
    simp only [hct] at h
    injection h with h
    subst h
    constructor
    · refine mapKeysOk_insert ?_ rfl (hinv.2 t hct)
      rw [(finalizeKernel_frame st).1]
      exact hinv.1
    · intro t' ht'
      simp at ht'

/-- One GoogleTest parser step preserves the invariant, provided the
line's `RUN` payload (if it is a `RUN` line) is non-empty. -/
theorem gtestParseLine_inv {st st' : ParserState} {l : Str}
    (hinv : stInv st)
    (hl : l.take 13 = runPfx → l.drop 13 ≠ [])
    (h : gtestParseLine st l = .ok st') : stInv st' := by
  unfold gtestParseLine at h
  have hframe := baseParseLine_frame st l
  rcases hbp : baseParseLine st l with ⟨st1, consumed⟩
  rw [hbp] at h hframe
  simp only at h hframe
  have hinv1 : stInv st1 := by
    constructor
    · rw [hframe.1]
      exact hinv.1
    · intro t ht
      rw [hframe.2] at ht
      exact hinv.2 t ht
  cases consumed with
  | true =>
    injection h with h
    subst h
    exact hinv1
  | false =>
    simp only [Bool.false_eq_true, if_false] at h
    by_cases hrun : l.take 13 = runPfx
    · rw [if_pos hrun] at h
      injection h with h
      subst h
      constructor
      · exact hinv1.1
      · intro t ht
        injection ht with ht
        subst ht
        exact hl hrun
    · rw [if_neg hrun] at h
      by_cases hok2 : l.take 13 = okPfx
      · rw [if_pos hok2] at h
        exact finalizeTestE_inv hinv1 h
      · rw [if_neg hok2] at h
        by_cases hfail : l.take 13 = failPfx
        · rw [if_pos hfail] at h
          split at h
          · exact finalizeTestE_inv hinv1 h
          · injection h with h
            subst h
            exact hinv1
        · rw [if_neg hfail] at h
          injection h with h
          subst h
          exact hinv1

/-- The fold over a whole GoogleTest log preserves the invariant. -/
theorem gtestFold_inv :
    ∀ (lines : List Str) (st st' : ParserState), stInv st →
      (∀ l ∈ lines, (preprocessLine l).take 13 = runPfx →
        (preprocessLine l).drop 13 ≠ []) →
      gtestFold st lines = .ok st' → stInv st' := by
  intro lines
  induction lines with
  | nil =>
    intro st st' hinv _ h
    injection h with h
    subst h
    exact hinv
  | cons l ls ih =>
    intro st st' hinv hgood h
    unfold gtestFold at h
    obtain ⟨st1, h1, h2⟩ := exceptBind_ok h
    exact ih st1 st' (gtestParseLine_inv hinv (hgood l (by simp)) h1)
      (fun x hx => hgood x (by simp [hx])) h2

/-- The `finalize` preserves the map invariant. -/
theorem finalizeParse_inv {st : ParserState} (hinv : stInv st) :
    mapKeysOk (finalizeParse st).kernel_map := by
  unfold finalizeParse
  split
  · exact hinv.1
  · exact mapKeysOk_insert hinv.1 rfl (by decide)

/-- The base parser's fold never touches the kernel map or current
test. -/
theorem baseFold_frame :
    ∀ (lines : List Str) (st : ParserState),
      (baseFold st lines).kernel_map = st.kernel_map ∧
        (baseFold st lines).current_test = st.current_test := by
  intro lines
  induction lines with
  | nil => intro st; exact ⟨rfl, rfl⟩
  | cons l ls ih =>
    intro st
    unfold baseFold
    constructor
    · rw [(ih _).1, (baseParseLine_frame st (preprocessLine l)).1]
    · rw [(ih _).2, (baseParseLine_frame st (preprocessLine l)).2]

/-- The kernel-map merging loop preserves the invariant. -/
theorem joinMapFold_inv :
    ∀ (entries m m' : List (Str × CompiledTest)), mapKeysOk m →
      mapKeysOk entries → joinMapFold m entries = .ok m' → mapKeysOk m' := by
  intro entries
  induction entries with
  | nil =>
    intro m m' hm _ h
    injection h with h
    subst h
    exact hm
  | cons e rest ih =>
    intro m m' hm hent h
    obtain ⟨k0, t0⟩ := e
    have hent0 := hent (k0, t0) (by simp)
    have henttail : mapKeysOk rest := fun p hp => hent p (List.mem_cons_of_mem _ hp)
    unfold joinMapFold at h
    split at h
    · exact absurd h (by simp)
    split at h
    · next hk0 =>
      cases hl : alLookup k0 m with
      | some existing =>
        simp only [hl] at h
        have hex := hm (k0, existing) (alLookup_mem hl)
        by_cases hb1 : existing.benchmark_result ≠ none
        · rw [if_pos hb1] at h
          exact absurd h (by simp)
        · rw [if_neg hb1] at h
          by_cases hb2 : t0.benchmark_result ≠ none
          · rw [if_pos hb2] at h
            exact absurd h (by simp)
          · rw [if_neg hb2] at h
            refine ih _ _ (mapKeysOk_insert
              (v := { existing with
                      kernels := existing.kernels ++ t0.kernels,
                      passed := existing.passed && t0.passed })
              hm ?_ hex.2) henttail h
            exact hex.1
      | none =>
        simp only [hl] at h
        exact ih _ _ (mapKeysOk_insert hm hent0.1 hent0.2) henttail h
    · split at h
      · exact absurd h (by simp)
      · exact ih _ _ (mapKeysOk_insert hm hent0.1 hent0.2) henttail h

/-- Claim C9 counterexample: the claim states every key of a constructed
kernel map is non-empty.  But the per-line preprocessing right-strips
*before* removing ANSI escapes (source line 279), so the GoogleTest log
line `"[ RUN      ] \x1b[0m"` survives the rstrip (it ends in `m`), is
then reduced to exactly the 13-character `RUN` prefix, and opens a test
whose captured identifier is the empty string; the following `OK` line
stores it, producing a kernel map whose only key is `""`. -/
theorem C9_counterexample :
    (parseGTestLog ["[ RUN      ] \x1b[0m".toList,
        "[       OK ] done".toList]).map
      (fun st => st.kernel_map.map Prod.fst) = .ok [([] : Str)] := by
  rfl

/-- Claim C9 (amended): every stored `CompiledTest.name` equals its map
key unconditionally; every key is non-empty provided each GoogleTest
`RUN` line carries a non-empty test identifier after preprocessing
(which holds for every well-formed log, but can be defeated by an ANSI
escape directly after the `RUN` prefix).  The invariant holds after
construction by the GoogleTest parser (under that proviso), after
construction by the base ungrouped parser, and is preserved by every
`join`. -/
theorem C9_amended :
    (∀ (lines : List Str) (st : ParserState),
      (∀ l ∈ lines, (preprocessLine l).take 13 = runPfx →
        (preprocessLine l).drop 13 ≠ []) →
      parseGTestLog lines = .ok st → mapKeysOk st.kernel_map) ∧
    (∀ lines : List Str, mapKeysOk (parseBaseLog lines).kernel_map) ∧
    (∀ tr other res : TestRunM, mapKeysOk tr.kernel_map →
      mapKeysOk other.kernel_map → joinRuns tr other = .ok res →
      mapKeysOk res.kernel_map) := by
  refine ⟨?_, ?_, ?_⟩
  · intro lines st hgood h
    unfold parseGTestLog at h
    cases hf : gtestFold initParserState lines with
    | error e =>
      rw [hf] at h
      exact absurd h (by simp [Except.map])
    | ok st0 =>
      rw [hf] at h
      have hinv0 : stInv initParserState := by
        constructor
        · intro p hp
          simp [initParserState] at hp
        · intro t ht
          simp [initParserState] at ht
      have hinv := gtestFold_inv lines initParserState st0 hinv0 hgood hf
      have : st = finalizeParse st0 := by
        simpa [Except.map] using h.symm
      rw [this]
      exact finalizeParse_inv hinv
  · intro lines
    unfold parseBaseLog
    refine finalizeParse_inv ⟨?_, ?_⟩
    · rw [(baseFold_frame lines initParserState).1]
      intro p hp
      simp [initParserState] at hp
    · intro t ht
      rw [(baseFold_frame lines initParserState).2] at ht
      simp [initParserState] at ht
  · intro tr other res htr hother h
    unfold joinRuns at h
    split at h
    · exact absurd h (by simp)
    split at h
    · exact absurd h (by simp)
    split at h
    · exact absurd h (by simp)
    split at h
    · exact absurd h (by simp)
    obtain ⟨nvcc, _, h⟩ := exceptBind_ok h
    obtain ⟨env, _, h⟩ := exceptBind_ok h
    obtain ⟨gpus, _, h⟩ := exceptBind_ok h
    obtain ⟨km, hkm, h⟩ := exceptBind_ok h
    have hres : res.kernel_map = km := by
      injection h with h
      rw [← h]
    rw [hres]
    exact joinMapFold_inv other.kernel_map tr.kernel_map km htr hother hkm

/-- The well-formed GoogleTest log of the C9 witness. -/
def c9GoodLog : List Str :=
  ["[ RUN      ] A.B".toList, "[       OK ] A.B".toList]

/-- The parser state produced by the C9 witness log. -/
def c9St : ParserState :=
  match parseGTestLog c9GoodLog with
  | .ok st => st
  | .error _ => initParserState

/-- Witness for C9 on a concrete log and a concrete join. -/
theorem C9_witness :
    (∀ l ∈ c9GoodLog, (preprocessLine l).take 13 = runPfx →
      (preprocessLine l).drop 13 ≠ []) ∧
    parseGTestLog c9GoodLog = .ok c9St ∧ mapKeysOk c9St.kernel_map ∧
    mapKeysOk wJoin1.kernel_map ∧ mapKeysOk wJoin2.kernel_map ∧
    joinRuns wJoin1 wJoin2 = .ok wJoined ∧ mapKeysOk wJoined.kernel_map :=
  ⟨by decide, rfl, C9_amended.1 c9GoodLog c9St (by decide) rfl,
    by decide, by decide, rfl,
    C9_amended.2.2 wJoin1 wJoin2 wJoined (by decide) (by decide) rfl⟩

/-- Bind of an `ok` value reduces. -/
theorem exceptOk_bind {ε α β : Type} (x : α) (f : α → Except ε β) :
    (Except.ok x : Except ε α) >>= f = f x := rfl

/-- Under the default criterion, a kernel pair with an empty code diff
and an absent-or-empty PTX diff is not included. -/
theorem includeKernel_self_none :
    includeKernel Criterion.mismatched_cuda_or_ptx [] none = false := by
  decide

/-- Under the default criterion, a kernel pair with an empty code diff
and an empty PTX diff is not included. -/
theorem includeKernel_self_some :
    includeKernel Criterion.mismatched_cuda_or_ptx [] (some []) = false := by
  decide

/-- Diffing a run against itself: the per-kernel loop collects no
kernel diffs. -/
theorem kernelLoop_self (tr : TestRunM) (tn : Str) :
    ∀ (m i : Nat) (kds : List KernelDiff) (n : Nat),
      kernelLoop tr tr Criterion.mismatched_cuda_or_ptx tn i m = .ok (kds, n) →
      kds = [] := by
  intro m
  induction m with
  | zero =>
    intro i kds n h
    unfold kernelLoop at h
    injection h with h
    injection h with h1 h2
    exact h1.symm
  | succ m ih =>
    intro i kds n h
    unfold kernelLoop at h
    obtain ⟨k1, hk1, h⟩ := exceptBind_ok h
    obtain ⟨k2, hk2, h⟩ := exceptBind_ok h
    rw [hk1] at hk2
    injection hk2 with hk2
    subst hk2
    obtain ⟨c1, hc1, h⟩ := exceptBind_ok h
    obtain ⟨c2, hc2, h⟩ := exceptBind_ok h
    rw [hc1] at hc2
    injection hc2 with hc2
    subst hc2
    simp only [unifiedDiffModel_self] at h
    obtain ⟨⟨rest, n'⟩, hrec, h⟩ := exceptBind_ok h
    have hrest := ih (i + 1) rest n' hrec
    subst hrest
    cases hptx : k1.ptx with
    | none =>
      rw [hptx] at h
      simp only [includeKernel_self_none, Bool.false_eq_true, if_false] at h
      injection h with h
      injection h with h1 h2
      exact h1.symm
    | some p =>
      rw [hptx] at h
      simp only [unifiedDiffModel_self, includeKernel_self_some,
        Bool.false_eq_true, if_false] at h
      injection h with h
      injection h with h1 h2
      exact h1.symm

/-- Diffing a test of a run against itself contributes no test diffs. -/
theorem processShared_self (tr : TestRunM) (tn : Str) (t : CompiledTest)
    {out : List TestDiff × Nat}
    (h : processShared tr tr Criterion.mismatched_cuda_or_ptx tn t t = .ok out) :
    out.1 = [] := by
  unfold processShared at h
  obtain ⟨⟨kds, n⟩, hk, h⟩ := exceptBind_ok h
  have hkds := kernelLoop_self tr tn _ _ _ _ hk
  subst hkds
  simp only [ne_eq, not_true_eq_false, if_false, List.isEmpty_nil,
    if_true, List.nil_append] at h
  injection h with h
  rw [← h]

/-- Diffing a run against itself: the first test loop contributes no
test diffs and no removed tests (every key of a well-formed dict looks
itself up). -/
theorem diffLoop1_self (tr : TestRunM) :
    ∀ (entries : List (Str × CompiledTest)),
      (∀ p ∈ entries, alLookup p.1 tr.kernel_map = some p.2) →
      ∀ {tds : List TestDiff} {removed : List CompiledTest} {n : Nat},
        diffLoop1 tr tr Criterion.mismatched_cuda_or_ptx entries =
          .ok (tds, removed, n) →
        tds = [] ∧ removed = [] := by
  intro entries
  induction entries with
  | nil =>
    intro _ tds removed n h
    unfold diffLoop1 at h
    injection h with h
    injection h with h1 h
    injection h with h2 _
    exact ⟨h1.symm, h2.symm⟩
  | cons e rest ih =>
    intro hent tds removed n h
    obtain ⟨k0, t0⟩ := e
    have hl : alLookup k0 tr.kernel_map = some t0 := hent (k0, t0) (by simp)
    unfold diffLoop1 at h
    simp only [hl] at h
    obtain ⟨⟨tds0, n0⟩, hps, h⟩ := exceptBind_ok h
    obtain ⟨⟨tds1, removed1, n1⟩, hrec, h⟩ := exceptBind_ok h
    have h0 : tds0 = [] := processShared_self tr k0 t0 hps
    have hih := ih (fun p hp => hent p (List.mem_cons_of_mem _ hp)) hrec
    injection h with h
    injection h with h1 h
    injection h with h2 _
    subst h0
    constructor
    · rw [← h1, hih.1, List.append_nil]
    · rw [← h2, hih.2]

/-- Diffing a run against itself: the second test loop finds no new
tests. -/
theorem diffLoop2_self (tr : TestRunM) :
    ∀ (entries : List (Str × CompiledTest)),
      (∀ p ∈ entries, (alLookup p.1 tr.kernel_map).isSome) →
      ∀ {news : List CompiledTest}, diffLoop2 tr tr entries = .ok news →
        news = [] := by
  intro entries
  induction entries with
  | nil =>
    intro _ news h
    unfold diffLoop2 at h
    injection h with h
    exact h.symm
  | cons e rest ih =>
    intro hent news h
    obtain ⟨k0, t0⟩ := e
    obtain ⟨v, hv⟩ := Option.isSome_iff_exists.mp (hent (k0, t0) (by simp))
    unfold diffLoop2 at h
    simp only [hv] at h
    exact ih (fun p hp => hent p (List.mem_cons_of_mem _ hp)) h

/-- Claim C7: constructing `TestDifferences` (with the default inclusion
criterion) from two identical `RunCapture`s — the very same parsed run
on both sides — yields zero test diffs, zero new tests, zero removed
tests, and empty preamble and environment diffs.  The `pyDictWF`
hypothesis states that the kernel map is a genuine dict (unique keys),
which holds for every map Python produces. -/
theorem C7_identical_runs (tr : TestRunM) (hWF : pyDictWF tr.kernel_map)
    (td : TestDifferences)
    (h : mkTestDifferences tr tr Criterion.mismatched_cuda_or_ptx = .ok td) :
    td.test_diffs = [] ∧ td.new_tests = [] ∧ td.removed_tests = [] ∧
      td.preamble_diff = [] ∧ td.env_diff = [] := by
  unfold mkTestDifferences at h
  obtain ⟨e1, he1, h⟩ := exceptBind_ok h
  obtain ⟨e2, he2, h⟩ := exceptBind_ok h
  rw [he1] at he2
  injection he2 with he2
  subst he2
  obtain ⟨⟨tds, removed, n⟩, h1, h⟩ := exceptBind_ok h
  obtain ⟨news, h2, h⟩ := exceptBind_ok h
  have hloop1 := diffLoop1_self tr tr.kernel_map hWF h1
  have hloop2 := diffLoop2_self tr tr.kernel_map
    (fun p hp => by rw [hWF p hp]; rfl) h2
  injection h with h
  subst h
  refine ⟨hloop1.1, hloop2, hloop1.2, ?_, ?_⟩
  · simp [unifiedDiffModel_self, pyJoin, List.intercalate]
  · simp [unifiedDiffModel_self, pyJoin, List.intercalate]

/-- Claim C1: for every pair of parsed runs given to the `diff`
subcommand, the process exit code is 1 if and only if the computed
`TestDifferences` contains at least one test diff or the preamble diff
is non-empty, and 0 otherwise; new/removed tests and environment
differences alone do not change the outcome (third conjunct). -/
theorem C1_exit_code (tr1 tr2 : TestRunM) (crit : Criterion)
    (td : TestDifferences)
    (h : mkTestDifferences tr1 tr2 crit = .ok td) :
    (diffExitCode td = 1 ↔ (td.test_diffs ≠ [] ∨ td.preamble_diff ≠ [])) ∧
      (diffExitCode td = 0 ↔ (td.test_diffs = [] ∧ td.preamble_diff = [])) ∧
      ∀ (nts rts : List CompiledTest) (ed : Str),
        diffExitCode
          { td with
            new_tests := nts,
            removed_tests := rts,
            env_diff := ed } = diffExitCode td := by
  refine ⟨?_, ?_, fun _ _ _ => rfl⟩
  · unfold diffExitCode
    by_cases h1 : td.test_diffs = [] <;> by_cases h2 : td.preamble_diff = [] <;>
      simp [h1, h2, List.length_pos]
  · unfold diffExitCode
    by_cases h1 : td.test_diffs = [] <;> by_cases h2 : td.preamble_diff = [] <;>
      simp [h1, h2, List.length_pos]

/-- Claim C2 (amended): for a test present in both runs with differing
kernel counts, the diff engine records a `TestDiff` with a `none`
per-kernel list (and warns) — exactly one such `TestDiff` — but it does
*not* stop there: per-kernel diffs over the first `min` kernels are
still computed, and if any kernel pair is admitted by the inclusion
criterion a second `TestDiff` carrying those diffs is recorded for the
same test. -/
theorem C2_amended (tr1 tr2 : TestRunM) (crit : Criterion) (testname : Str)
    (t1 t2 : CompiledTest) (out : List TestDiff × Nat)
    (hc : t1.kernels.length ≠ t2.kernels.length)
    (h : processShared tr1 tr2 crit testname t1 t2 = .ok out) :
    ∃ kds : List KernelDiff,
      out.1 = { testname := testname, test1 := t1, test2 := t2,
                kernel_diffs := none } ::
        (if kds.isEmpty then []
         else [{ testname := testname, test1 := t1, test2 := t2,
                 kernel_diffs := some kds }]) ∧
      (out.1.filter (fun td => td.kernel_diffs.isNone)).length = 1 := by
  unfold processShared at h
  obtain ⟨⟨kds, n⟩, hk, h⟩ := exceptBind_ok h
  rw [if_pos hc] at h
  injection h with h
  refine ⟨kds, ?_, ?_⟩
  · rw [← h]
    simp
  · rw [← h]
    by_cases hkds : kds.isEmpty <;> simp [hkds, List.filter]

/-- The kernel of the witness runs' shared test (a `.cu` file `0.cu`). -/
def wKernelA : CompiledKernel := mkCompiledKernel "0.cu".toList (some []) (some [])

/-- The extra kernel present only in the second witness run. -/
def wKernelB : CompiledKernel := mkCompiledKernel "1.cu".toList (some []) (some [])

/-- The shared test as run 1 parsed it (one kernel). -/
def wTestT1 : CompiledTest := { name := "t".toList, kernels := [wKernelA] }

/-- The shared test as run 2 parsed it (two kernels). -/
def wTestT2 : CompiledTest := { name := "t".toList, kernels := [wKernelA, wKernelB] }

/-- The first witness run: one test with one kernel whose body is
`x();`. -/
def wRun : TestRunM :=
  { directory := "r1".toList, git := wGit, name := "r1".toList,
    command := "cmd".toList, command_type := CommandType.GOOGLETEST,
    exit_code := 0, env := some "E=1".toList, gpu_names := some [],
    nvcc_version := some [], kernel_map := [("t".toList, wTestT1)],
    preamble := [], preamble_size_lines := 0,
    cuda_files := [("0.cu".toList, "x();\n".toList)], ptx_files := [] }

/-- The second witness run: the same test now has two kernels, and the
first kernel's body changed to `y();`. -/
def wRun2 : TestRunM :=
  { wRun with
    directory := "r2".toList,
    name := "r2".toList,
    kernel_map := [("t".toList, wTestT2)],
    cuda_files := [("0.cu".toList, "y();\n".toList),
                   ("1.cu".toList, "z();\n".toList)] }

/-- The computed differences between the two witness runs. -/
def wTD : TestDifferences :=
  match mkTestDifferences wRun wRun2 Criterion.mismatched_cuda_or_ptx with
  | .ok td => td
  | .error _ =>
    { run1 := wRun, run2 := wRun, test_diffs := [], new_tests := [],
      removed_tests := [], total_num_diffs := 0, preamble_diff := [],
      env_diff := [] }

/-- Witness for C1 at a concrete pair of runs that differ. -/
theorem C1_witness :
    mkTestDifferences wRun wRun2 Criterion.mismatched_cuda_or_ptx = .ok wTD ∧
      ((diffExitCode wTD = 1 ↔ (wTD.test_diffs ≠ [] ∨ wTD.preamble_diff ≠ [])) ∧
        (diffExitCode wTD = 0 ↔
          (wTD.test_diffs = [] ∧ wTD.preamble_diff = [])) ∧
        ∀ (nts rts : List CompiledTest) (ed : Str),
          diffExitCode
            { wTD with
              new_tests := nts,
              removed_tests := rts,
              env_diff := ed } = diffExitCode wTD) :=
  ⟨rfl, C1_exit_code wRun wRun2 Criterion.mismatched_cuda_or_ptx wTD rfl⟩

/-- Claim C2 counterexample: the claim states a kernel-count-mismatched
test is recorded as exactly one `TestDiff` with a null per-kernel list
and that no per-kernel diffs are computed for it.  For the witness runs
(shared test `t` with 1 vs 2 kernels, first kernel bodies differing),
the engine records *two* `TestDiff`s for `t`: the null-list one, and a
second one carrying the computed per-kernel diff of the shared prefix. -/
theorem C2_counterexample :
    (mkTestDifferences wRun wRun2 Criterion.mismatched_cuda_or_ptx).map
      (fun td => td.test_diffs.map (fun d => d.kernel_diffs.isNone)) =
      .ok [true, false] := by
  rfl

/-- The per-test diff output of the witness mismatched test. -/
def c2Out : List TestDiff × Nat :=
  match processShared wRun wRun2 Criterion.mismatched_cuda_or_ptx "t".toList
      wTestT1 wTestT2 with
  | .ok o => o
  | .error _ => ([], 0)

/-- Witness for the amended C2 at the concrete mismatched test. -/
theorem C2_witness :
    wTestT1.kernels.length ≠ wTestT2.kernels.length ∧
      processShared wRun wRun2 Criterion.mismatched_cuda_or_ptx "t".toList
        wTestT1 wTestT2 = .ok c2Out ∧
      (∃ kds : List KernelDiff,
        c2Out.1 = { testname := "t".toList, test1 := wTestT1,
                    test2 := wTestT2, kernel_diffs := none } ::
          (if kds.isEmpty then []
           else [{ testname := "t".toList, test1 := wTestT1,
                   test2 := wTestT2, kernel_diffs := some kds }]) ∧
        (c2Out.1.filter (fun td => td.kernel_diffs.isNone)).length = 1) :=
  ⟨by decide, rfl,
    C2_amended wRun wRun2 Criterion.mismatched_cuda_or_ptx "t".toList
      wTestT1 wTestT2 c2Out (by decide) rfl⟩

/-- The (empty) differences of the first witness run against itself. -/
def wTDself : TestDifferences :=
  match mkTestDifferences wRun wRun Criterion.mismatched_cuda_or_ptx with
  | .ok td => td
  | .error _ =>
    { run1 := wRun, run2 := wRun, test_diffs := [], new_tests := [],
      removed_tests := [], total_num_diffs := 0, preamble_diff := [],
      env_diff := [] }

/-- Witness for C7: the concrete run diffed against itself. -/
theorem C7_witness :
    pyDictWF wRun.kernel_map ∧
      mkTestDifferences wRun wRun Criterion.mismatched_cuda_or_ptx =
        .ok wTDself ∧
      (wTDself.test_diffs = [] ∧ wTDself.new_tests = [] ∧
        wTDself.removed_tests = [] ∧ wTDself.preamble_diff = [] ∧
        wTDself.env_diff = []) :=
  ⟨by decide, rfl, C7_identical_runs wRun (by decide) wTDself rfl⟩
